import Mathlib

/-!
# Gatherly: event lifecycle routes and chat hub

A shallow embedding of `src/backend/routes/event.js` (the Express routes that
list, create, edit and delete events) and of the Socket.io handlers of
`src/backend/index.js` (`loadMessages`, `sendMessage`).

Modelling conventions.

* The two MongoDB collections are lists in natural (insertion) order. A
  Mongoose call that addresses one document by `_id` acts on the first
  document of the list with that `_id`.
* An `ObjectId` is an abstract identifier, here a natural number. The
  `_id` of a new document and the value of `new Date()` come from the
  environment, so the handlers take them as arguments (`newId`, `now`).
* Store calls do not throw, with one exception: a path parameter that is
  not a well-formed ObjectId (`IdParam.malformed`) makes `findById` of the
  listing route throw a cast error, which its `catch` answers with HTTP
  500; the delete route tests the parameter itself and answers 400. The
  edit route and the hub handlers are modelled on well-formed ids, and
  their `catch` branches are not part of the model.
* JavaScript numbers are doubles. The listing route is modelled on
  integers, with the rounding of its subtraction and multiplication made
  explicit (`roundDouble`); up to `2 ^ 53` a double computation on
  integers is exact.
* The Mongoose schemas (`models/Event.js`, `models/FamilyGroup.js`) are not
  among the sources; documents carry exactly the fields the handlers read
  or write, and string fields are stored as given.
-/

set_option autoImplicit false

namespace Gatherly

/-! ## Data model -/

abbrev ObjectId := Nat

/-- One entry of `familyGroup.members`. -/
structure Member where
  user_id : ObjectId
deriving DecidableEq, Repr

/-- One entry of `familyGroup.events`, as pushed by the create route. -/
structure EventSummary where
  event_id : ObjectId
  user_id : ObjectId
  title : String
deriving DecidableEq, Repr

/-- One entry of `familyGroup.mensahe`, as pushed by `sendMessage`. -/
structure Message where
  msname : String
  message : String
  ava : String
  timestamp : String
deriving DecidableEq, Repr

structure FamilyGroup where
  _id : ObjectId
  unique_code : String
  members : List Member
  events : List EventSummary
  mensahe : List Message
deriving DecidableEq, Repr

/-- One entry of `event.interested`. -/
structure Interest where
  user_id : ObjectId
  isInterested : Bool
deriving DecidableEq, Repr

structure Event where
  _id : ObjectId
  family_group_id : ObjectId
  user_id : ObjectId
  title : String
  description : String
  date : String
  interested : List Interest
  createdAt : String
deriving DecidableEq, Repr

/-- The database: the FamilyGroup collection and the Event collection. -/
structure Store where
  groups : List FamilyGroup
  events : List Event
deriving DecidableEq, Repr

/-- The identity `verifyToken` puts in `req.user`. -/
structure AuthUser where
  id : ObjectId
  full_name : String
deriving DecidableEq, Repr

/-- What a route answers: `res.status(status).json(body)`, the
`res.status(status).json({ message })` of a refusal, or the
`res.status(400).json({ errors })` of a failed validation. -/
inductive Response (α : Type) where
  | ok (status : Nat) (body : α)
  | fail (status : Nat) (message : String)
  | invalid (errors : List String)
deriving DecidableEq, Repr

def Response.status {α : Type} : Response α → Nat
  | .ok st _ => st
  | .fail st _ => st
  | .invalid _ => 400

/-! ## Mongoose operations on a collection -/

/-- Apply `f` to the first document satisfying `p` (`updateOne`). -/
def updateOne {α : Type} (p : α → Bool) (f : α → α) : List α → List α
  | [] => []
  | x :: xs => if p x then f x :: xs else x :: updateOne p f xs

def FamilyGroup.findById (coll : List FamilyGroup) (id : ObjectId) : Option FamilyGroup :=
  coll.find? (fun g => g._id == id)

/-- The query `FamilyGroup.findOne({ unique_code })`. -/
def FamilyGroup.findOne (coll : List FamilyGroup) (unique_code : String) : Option FamilyGroup :=
  coll.find? (fun g => g.unique_code == unique_code)

/-- The call `FamilyGroup.findByIdAndUpdate(id, update, { new: true })`: the
collection after the update together with the updated document, or `none`
when no document has that `_id` (the call resolves to `null`). -/
def FamilyGroup.findByIdAndUpdate (coll : List FamilyGroup) (id : ObjectId)
    (update : FamilyGroup → FamilyGroup) : Option (List FamilyGroup × FamilyGroup) :=
  match FamilyGroup.findById coll id with
  | none => none
  | some g => some (updateOne (fun x => x._id == id) update coll, update g)

def Event.findById (coll : List Event) (id : ObjectId) : Option Event :=
  coll.find? (fun e => e._id == id)

/-- The query `Event.find({ family_group_id })`. -/
def Event.find (coll : List Event) (family_group_id : ObjectId) : List Event :=
  coll.filter (fun e => e.family_group_id == family_group_id)

/-- The query `Event.countDocuments({ family_group_id })`. -/
def Event.countDocuments (coll : List Event) (family_group_id : ObjectId) : Nat :=
  (coll.filter (fun e => e.family_group_id == family_group_id)).length

def Event.findByIdAndDelete (coll : List Event) (id : ObjectId) : List Event :=
  coll.eraseP (fun e => e._id == id)

/-! ## POST /create -/

/-- The body of a create request; a field the client left out is `none`. -/
structure CreateBody where
  unique_code : Option String
  title : Option String
  description : Option String
  date : Option String
deriving DecidableEq, Repr

/-- The validator `body(field).notEmpty()`: the field is present and not the
empty string. -/
def notEmpty : Option String → Bool
  | some v => v != ""
  | none => false

/-- The chain `validateEventCreation` followed by `validationResult(req)`:
the messages of the failed checks, in order. `isISO8601` is the date check
of the validator library. -/
def validateEventCreation (isISO8601 : String → Bool) (body : CreateBody) : List String :=
  (if notEmpty body.unique_code then [] else ["Unique code is required"]) ++
  (if notEmpty body.title then [] else ["Title is required"]) ++
  (if notEmpty body.description then [] else ["Description is required"]) ++
  (match body.date with
    | some d => if isISO8601 d then [] else ["Valid date is required"]
    | none => ["Valid date is required"])

def max_members : Nat := 100

/-- The 201 body of the create route. -/
structure CreateOk where
  message : String
  event : Event
  full_name : String
deriving DecidableEq, Repr

/-- The handler of `router.post('/create')`. -/
def create (isISO8601 : String → Bool) (s : Store) (newId : ObjectId) (now : String)
    (user : AuthUser) (body : CreateBody) : Store × Response CreateOk :=
  let errors := validateEventCreation isISO8601 body
  if !errors.isEmpty then (s, .invalid errors) else
  let unique_code := body.unique_code.getD ""
  let title := body.title.getD ""
  let description := body.description.getD ""
  let date := body.date.getD ""
  match FamilyGroup.findOne s.groups unique_code with
  | none => (s, .fail 404 "Family group not found")
  | some familyGroup =>
    let isMember := familyGroup.members.any (fun member => member.user_id == user.id)
    if !isMember then (s, .fail 403 "You are not a member of this family group") else
    if familyGroup.members.length > max_members then
      (s, .fail 400 ("Family group has too many members (limit: " ++ toString max_members ++ ")"))
    else
      let newEvent : Event :=
        { _id := newId
          family_group_id := familyGroup._id
          user_id := user.id
          title := title
          description := description
          date := date
          interested := (familyGroup.members.take max_members).map
            (fun member => { user_id := member.user_id, isInterested := false })
          createdAt := now }
      -- await newEvent.save()
      let events := s.events ++ [newEvent]
      -- familyGroup.events.push(...); await familyGroup.save()
      let groups := updateOne (fun g => g._id == familyGroup._id)
        (fun g => { g with events := g.events ++
          [{ event_id := newEvent._id, user_id := user.id, title := title }] }) s.groups
      ({ groups := groups, events := events },
        .ok 201 { message := "Event created successfully", event := newEvent,
                  full_name := user.full_name })

/-! ## GET /family-group/:familyGroupId -/

/-- A path segment that names a document (`:familyGroupId`, `:eventId`): a
string that is a well-formed ObjectId (what
`mongoose.Types.ObjectId.isValid` accepts and a query on `_id` can cast),
read as the ObjectId it denotes, or a string that is not. -/
inductive IdParam where
  | wellFormed (id : ObjectId)
  | malformed (raw : String)
deriving DecidableEq, Repr

/-- The expression `parseInt(q) || dflt`. The argument is the Number that
`parseInt` made of the query parameter: `none` is `NaN` (parameter absent
or not a number), `some v` a finite result, which is an integer and a
double (`Infinity`, the result for a parameter of more than 308 digits, is
not modelled). `NaN` and `0` are falsy, so both give `dflt`. -/
def parseIntOr (q : Option Int) (dflt : Int) : Int :=
  match q with
  | none => dflt
  | some v => if v = 0 then dflt else v

/-- The search behind `ulpOf`: double `u` until `a < 2 ^ 53 * u`, at most
`fuel` times. -/
def ulpFrom : Nat → Nat → Nat → Nat
  | 0, _, u => u
  | fuel + 1, a, u => if a < 2 ^ 53 * u then u else ulpFrom fuel a (2 * u)

/-- The spacing of the doubles at the natural number `a`: the least power
of two `u` with `a < 2 ^ 53 * u` (1 below `2 ^ 53`, 2 from `2 ^ 53` to
`2 ^ 54`, and so on over the finite range of doubles). -/
def ulpOf (a : Nat) : Nat := ulpFrom 1024 a 1

/-- The double nearest to the integer `n`: round to nearest, ties to even,
with 53 significant bits (overflow to `Infinity`, beyond `2 ^ 1024`, is not
modelled). An integer of absolute value at most `2 ^ 53` is its own
double. -/
def roundDouble (n : Int) : Int :=
  let a := n.natAbs
  if a ≤ 2 ^ 53 then n else
    let ulp := ulpOf a
    let q := a / ulp
    let r := a % ulp
    let m :=
      if 2 * r < ulp then q * ulp
      else if 2 * r = ulp ∧ q % 2 = 0 then q * ulp
      else (q + 1) * ulp
    if n < 0 then -(m : Int) else (m : Int)

/-- The numbers the listing route computes from the query and the count. -/
structure Pagination where
  page : Int
  limit : Int
  skip : Int
  totalPages : Int
deriving DecidableEq, Repr

/-- The pagination arithmetic of the listing route: `page` and `limit` as
computed at the top of the handler (`Math.max` is exact); the argument of
`.skip(...)`, `(page - 1) * limit`, each operation rounded to a double;
and `Math.ceil(totalEvents / limit)`. With `limit` at least 1 and fewer
than `2 ^ 53` events, the rounded quotient lies strictly between the same
two integers as the exact one, so its ceiling is the integer ceiling. -/
def paginate (pageQ limitQ : Option Int) (totalEvents : Nat) : Pagination :=
  let page := max 1 (parseIntOr pageQ 1)
  let limit := max 1 (parseIntOr limitQ 10)
  { page := page
    limit := limit
    skip := roundDouble (roundDouble (page - 1) * limit)
    totalPages := ((totalEvents : Int) + limit - 1) / limit }

/-- The range in which the doubles of the listing route are the exact
integers: page, limit and `(page - 1) * limit` at most `2 ^ 53`, and fewer
than `2 ^ 53` events. -/
def ExactRange (page limit : Int) (totalEvents : Nat) : Prop :=
  page ≤ 2 ^ 53 ∧ limit ≤ 2 ^ 53 ∧ (page - 1) * limit ≤ 2 ^ 53 ∧
  (totalEvents : Int) < 2 ^ 53

/-- The 200 body of the listing route. -/
structure ListOk where
  events : List Event
  totalPages : Int
  currentPage : Int
deriving DecidableEq, Repr

/-- The handler of `router.get('/family-group/:familyGroupId')`. On a
malformed `familyGroupId` the call `FamilyGroup.findById` throws a cast
error and the `catch` answers 500. -/
def listForGroup (s : Store) (user : AuthUser) (familyGroupId : IdParam)
    (pageQ limitQ : Option Int) : Store × Response ListOk :=
  match familyGroupId with
  | .malformed _ => (s, .fail 500 "Error fetching events")
  | .wellFormed id =>
    match FamilyGroup.findById s.groups id with
    | none => (s, .fail 404 "Family group not found")
    | some familyGroup =>
      let isMember := familyGroup.members.any (fun member => member.user_id == user.id)
      if !isMember then (s, .fail 403 "You are not a member of this family group") else
      let totalEvents := Event.countDocuments s.events familyGroup._id
      let pg := paginate pageQ limitQ totalEvents
      let events :=
        ((Event.find s.events familyGroup._id).drop pg.skip.toNat).take pg.limit.toNat
      (s, .ok 200 { events := events, totalPages := pg.totalPages, currentPage := pg.page })

/-! ## PUT /edit/:eventId -/

/-- The body of an edit request; a field the client left out is `none`. -/
structure EditBody where
  title : Option String
  description : Option String
  date : Option String
deriving DecidableEq, Repr

/-- The expression `v || old` on a string field: `undefined` and the empty
string are falsy. -/
def orKeep (v : Option String) (old : String) : String :=
  match v with
  | none => old
  | some x => if x = "" then old else x

/-- The 200 body of the edit route. -/
structure EditOk where
  message : String
  event : Event
deriving DecidableEq, Repr

/-- The handler of `router.put('/edit/:eventId')`. The chain
`validateEventUpdate` runs before it, but the handler never reads
`validationResult(req)`, so the chain has no effect on the answer. -/
def edit (s : Store) (user : AuthUser) (eventId : ObjectId) (body : EditBody) :
    Store × Response EditOk :=
  match Event.findById s.events eventId with
  | none => (s, .fail 404 "Event not found")
  | some event =>
    if event.user_id != user.id then
      (s, .fail 403 "You are not authorized to edit this event")
    else
      let title := orKeep body.title event.title
      let description := orKeep body.description event.description
      let date := orKeep body.date event.date
      -- await event.save()
      let events := updateOne (fun e => e._id == event._id)
        (fun e => { e with title := title, description := description, date := date }) s.events
      ({ s with events := events },
        .ok 200 { message := "Event updated successfully",
                  event := { event with title := title, description := description,
                                        date := date } })

/-! ## DELETE /delete/:eventId -/

/-- The 200 body of the delete route. -/
structure DeleteOk where
  message : String
deriving DecidableEq, Repr

/-- The handler of `router.delete('/delete/:eventId')`. -/
def delete (s : Store) (user : AuthUser) (eventId : IdParam) : Store × Response DeleteOk :=
  match eventId with
  | .malformed _ => (s, .fail 400 "Invalid event ID")
  | .wellFormed id =>
    match Event.findById s.events id with
    | none => (s, .fail 404 "Event not found")
    | some event =>
      if event.user_id != user.id then
        (s, .fail 403 "You are not authorized to delete this event")
      else
        -- { $pull: { events: { event_id: eventId } } }
        match FamilyGroup.findByIdAndUpdate s.groups event.family_group_id
            (fun g => { g with events := g.events.filter (fun x => !(x.event_id == id)) }) with
        | none => (s, .fail 404 "Family group not found")
        | some (groups, _) =>
          ({ groups := groups, events := Event.findByIdAndDelete s.events id },
            .ok 200 { message := "Event deleted successfully" })

/-! ## The Socket.io chat hub -/

abbrev SocketId := Nat

/-- What the server emits. `newMessage` carries the value of
`updatedFamilyGroup.mensahe[updatedFamilyGroup.mensahe.length - 1]`, which
JavaScript leaves `undefined` (`none`) on an empty array. -/
inductive Signal where
  | previousMessages (messages : List Message)
  | newMessage (message : Option Message)
  | error (text : String)
deriving DecidableEq, Repr

/-- One delivery of a signal to one connection. -/
structure Emission where
  target : SocketId
  signal : Signal
deriving DecidableEq, Repr

/-- The data of a `sendMessage` event as `Chat.jsx` builds it. The handler
destructures `familyGroupId`, `msname`, `message` and `ava` only. -/
structure SendPayload where
  familyGroupId : ObjectId
  msname : String
  message : String
  ava : String
  timestamp : Option String
deriving DecidableEq, Repr

/-- The handler of `socket.on('loadMessages')` on connection `socket`. -/
def loadMessages (s : Store) (socket : SocketId) (familyGroupId : ObjectId) :
    Store × List Emission :=
  match FamilyGroup.findById s.groups familyGroupId with
  | some familyGroup => (s, [{ target := socket, signal := .previousMessages familyGroup.mensahe }])
  | none => (s, [{ target := socket, signal := .error "Family group not found" }])

/-- The handler of `socket.on('sendMessage')` on connection `socket`.
`clients` are the connections `io.emit` reaches and `now` is
`new Date().toISOString()`. -/
def sendMessage (s : Store) (clients : List SocketId) (socket : SocketId) (now : String)
    (data : SendPayload) : Store × List Emission :=
  match FamilyGroup.findByIdAndUpdate s.groups data.familyGroupId
      (fun g => { g with mensahe := g.mensahe ++
        [{ msname := data.msname, message := data.message, ava := data.ava,
           timestamp := now }] }) with
  | some (groups, updatedFamilyGroup) =>
    let newMessage := updatedFamilyGroup.mensahe.getLast?
    ({ s with groups := groups },
      clients.map (fun c => { target := c, signal := .newMessage newMessage }))
  | none => (s, [{ target := socket, signal := .error "Family group not found" }])

/-- A run of `sendMessage` events handled one after another: each entry is
the sending connection, the server clock at that moment and the data. The
result is the final store and all emissions in order. -/
def sendAll (s : Store) (clients : List SocketId) :
    List (SocketId × String × SendPayload) → Store × List Emission
  | [] => (s, [])
  | (socket, now, data) :: rest =>
    let r := sendMessage s clients socket now data
    let r2 := sendAll r.1 clients rest
    (r2.1, r.2 ++ r2.2)

/-- The message `sendMessage` stores for `data` at server time `now`. -/
def SendPayload.stored (data : SendPayload) (now : String) : Message :=
  { msname := data.msname, message := data.message, ava := data.ava, timestamp := now }

/-! ## Sample data -/

def sampleGroup : FamilyGroup :=
  { _id := 1, unique_code := "FAM1", members := [{ user_id := 10 }, { user_id := 11 }],
    events := [], mensahe := [] }

def sampleStore : Store := { groups := [sampleGroup], events := [] }

def sampleBody : CreateBody :=
  { unique_code := some "FAM1", title := some "Reunion", description := some "Lunch",
    date := some "2030-01-01" }

/-- A stand-in for the date check of the validator library, used for the
sample runs only. -/
def sampleISO (d : String) : Bool := d.length == 10

def u1 : AuthUser := { id := 10, full_name := "Ana" }

def u2 : AuthUser := { id := 11, full_name := "Ben" }

def u3 : AuthUser := { id := 12, full_name := "Cy" }

/-- A user who belongs to none of the sample groups. -/
def outsider : AuthUser := { id := 500, full_name := "Dee" }

/-- A second small group, of which `u3` is the only member. -/
def otherGroup : FamilyGroup :=
  { _id := 5, unique_code := "FAM5", members := [{ user_id := 12 }], events := [],
    mensahe := [] }

/-- A store with two groups and three events, the second of them owned by
the other group. -/
def listStore : Store :=
  { groups := [sampleGroup, otherGroup],
    events :=
      [{ _id := 100, family_group_id := 1, user_id := 10, title := "Reunion",
         description := "Lunch", date := "2030-01-01", interested := [], createdAt := "t0" },
       { _id := 101, family_group_id := 5, user_id := 12, title := "Hike",
         description := "Hills", date := "2030-02-01", interested := [], createdAt := "t1" },
       { _id := 102, family_group_id := 1, user_id := 11, title := "Picnic",
         description := "Park", date := "2030-03-01", interested := [], createdAt := "t2" }] }

/-- A group of 101 members, with user ids 0 to 100. -/
def bigGroup : FamilyGroup :=
  { _id := 2, unique_code := "BIG",
    members := (List.range 101).map (fun i => { user_id := i }),
    events := [], mensahe := [] }

/-- A group of exactly 100 members, with user ids 0 to 99. -/
def fullGroup : FamilyGroup :=
  { _id := 3, unique_code := "FULL",
    members := (List.range 100).map (fun i => { user_id := i }),
    events := [], mensahe := [] }

def bigStore : Store := { groups := [sampleGroup, bigGroup, fullGroup], events := [] }

def bigBody : CreateBody := { sampleBody with unique_code := some "BIG" }

def fullBody : CreateBody := { sampleBody with unique_code := some "FULL" }

/-- The event that `u1` creates in `sampleGroup` with `sampleBody`. -/
def sampleEvent : Event :=
  { _id := 100, family_group_id := 1, user_id := 10, title := "Reunion",
    description := "Lunch", date := "2030-01-01",
    interested := [{ user_id := 10, isInterested := false },
                   { user_id := 11, isInterested := false }],
    createdAt := "t0" }

/-- The store after that creation. -/
def eventStore : Store :=
  { groups := [{ sampleGroup with
      events := [{ event_id := 100, user_id := 10, title := "Reunion" }] }],
    events := [sampleEvent] }

def titleOnly : EditBody := { title := some "New", description := none, date := none }

/-- Three messages for `sampleGroup`, sent in turn from connections 1, 2 and 3. -/
def threeSends : List (SocketId × String × SendPayload) :=
  [(1, "t1", { familyGroupId := 1, msname := "Ana", message := "A", ava := "a.png",
               timestamp := some "c1" }),
   (2, "t2", { familyGroupId := 1, msname := "Ben", message := "B", ava := "b.png",
               timestamp := none }),
   (3, "t3", { familyGroupId := 1, msname := "Cy", message := "C", ava := "c.png",
               timestamp := some "c3" })]

/-! ## Summary/record consistency -/

/-- The guarantee of the database that no two FamilyGroup documents share
an `_id`. -/
def GroupIdsUnique (s : Store) : Prop :=
  (s.groups.map (fun g => g._id)).Nodup

/-- The consistency of the two views of an event, in the words of the
specification: every `event_id` in every group's summary list corresponds
to exactly one Event record, owned by that group; and every Event record
has an owning group with exactly one summary of it. -/
def Consistent (s : Store) : Prop :=
  (∀ g ∈ s.groups, ∀ x ∈ g.events,
    s.events.countP (fun e => e._id == x.event_id) = 1 ∧
    ∀ e ∈ s.events, e._id = x.event_id → e.family_group_id = g._id) ∧
  (∀ e ∈ s.events, ∃ g ∈ s.groups, g._id = e.family_group_id ∧
    g.events.countP (fun x => x.event_id == e._id) = 1)

/-! ## Interleaved `sendMessage` calls

The handler of `sendMessage` makes one store call and awaits it, so a call
in flight takes two atomic actions: the database applies its
`findByIdAndUpdate` (one single-document operation of the store), and later
the handler resumes with the document the call resolved to and emits. The
actions of different calls may interleave in any order. -/

/-- The store call of the `sendMessage` handler, `findByIdAndUpdate` with
the `$push` and `{ new: true }`: the store after it and the document the
call resolves to (`none` for `null`). -/
def sendMessageUpdate (s : Store) (now : String) (data : SendPayload) :
    Store × Option FamilyGroup :=
  match FamilyGroup.findByIdAndUpdate s.groups data.familyGroupId
      (fun g => { g with mensahe := g.mensahe ++
        [{ msname := data.msname, message := data.message, ava := data.ava,
           timestamp := now }] }) with
  | some (groups, updatedFamilyGroup) => ({ s with groups := groups }, some updatedFamilyGroup)
  | none => (s, none)

/-- What the `sendMessage` handler does after the `await`, given the
document the store call resolved to. -/
def sendMessageResume (clients : List SocketId) (socket : SocketId)
    (updatedFamilyGroup : Option FamilyGroup) : List Emission :=
  match updatedFamilyGroup with
  | some doc =>
    let newMessage := doc.mensahe.getLast?
    clients.map (fun c => { target := c, signal := .newMessage newMessage })
  | none => [{ target := socket, signal := .error "Family group not found" }]

/-- Where a `sendMessage` call in flight stands. -/
inductive Phase where
  | pending
  | resolved (doc : Option FamilyGroup)
  | finished
deriving DecidableEq, Repr

def Phase.isPending : Phase → Bool
  | .pending => true
  | _ => false

/-- The hub while calls are in flight: the store, the phase of each call
and the emissions so far. -/
structure HubState where
  store : Store
  phases : List Phase
  out : List Emission
deriving DecidableEq, Repr

/-- All calls issued, none applied yet. -/
def startHub (s : Store) (calls : List (SocketId × String × SendPayload)) : HubState :=
  { store := s, phases := calls.map (fun _ => Phase.pending), out := [] }

/-- One atomic action of call number `i`: the database applies its store
call, or the handler resumes and emits; nothing when the call is finished
or there is no such call. Each call carries its connection, the value of
`new Date().toISOString()` taken when it was issued, and its data. -/
def advance (clients : List SocketId) (calls : List (SocketId × String × SendPayload))
    (h : HubState) (i : Nat) : HubState :=
  match calls[i]?, h.phases[i]? with
  | some (_, now, data), some .pending =>
    let r := sendMessageUpdate h.store now data
    { store := r.1, phases := h.phases.set i (.resolved r.2), out := h.out }
  | some (socket, _, _), some (.resolved doc) =>
    { store := h.store, phases := h.phases.set i .finished,
      out := h.out ++ sendMessageResume clients socket doc }
  | _, _ => h

/-- An interleaving: the list of the call numbers whose next action runs,
in execution order. -/
def runSchedule (clients : List SocketId) (calls : List (SocketId × String × SendPayload))
    (h : HubState) (schedule : List Nat) : HubState :=
  schedule.foldl (advance clients calls) h


/-- The invariant of interleaved runs for the group with id `gid` whose log
was `log0` when the calls were issued: every call has a phase; the group
still exists and its log is `log0` followed by one message for each call
whose store call has been applied; and the message of each such call is
among them. -/
def HubInv (calls : List (SocketId × String × SendPayload)) (gid : ObjectId)
    (log0 : List Message) (h : HubState) : Prop :=
  h.phases.length = calls.length ∧
  ∃ g order, FamilyGroup.findById h.store.groups gid = some g ∧
    g.mensahe = log0 ++ order ∧
    order.length = h.phases.countP (fun p => !p.isPending) ∧
    ∀ (i : Nat) (c : SocketId × String × SendPayload) (p : Phase),
      calls[i]? = some c → h.phases[i]? = some p → p.isPending = false →
      c.2.2.stored c.2.1 ∈ order

end Gatherly


namespace Gatherly

/-! ## Lemmas on the collection operations -/

theorem updateOne_of_find {α : Type} (p : α → Bool) (f : α → α) (l : List α) (x : α)
    (h : l.find? p = some x) :
    ∃ pre post, l = pre ++ x :: post ∧ (∀ y ∈ pre, p y = false) ∧
      updateOne p f l = pre ++ f x :: post := by
  induction l with
  | nil => simp at h
  | cons a t ih =>
    by_cases hp : p a = true
    · have hx : a = x := by simpa [List.find?, hp] using h
      subst hx
      exact ⟨[], t, rfl, by simp, by simp [updateOne, hp]⟩
    · have hp2 : p a = false := by simpa using hp
      have ht : t.find? p = some x := by simpa [List.find?, hp2] using h
      obtain ⟨pre, post, h1, h2, h3⟩ := ih ht
      refine ⟨a :: pre, post, by simp [h1], ?_, by simp [updateOne, hp2, h3]⟩
      intro y hy
      rcases List.mem_cons.mp hy with rfl | hy
      · exact hp2
      · exact h2 y hy

theorem updateOne_of_find_none {α : Type} (p : α → Bool) (f : α → α) (l : List α)
    (h : l.find? p = none) : updateOne p f l = l := by
  induction l with
  | nil => rfl
  | cons a t ih =>
    have h2 : p a = false ∧ t.find? p = none := by
      by_cases hp : p a = true
      · simp [List.find?, hp] at h
      · have hp2 : p a = false := by simpa using hp
        exact ⟨hp2, by simpa [List.find?, hp2] using h⟩
    simp [updateOne, h2.1, ih h2.2]

theorem find_of_split {α : Type} (p : α → Bool) (pre post : List α) (x : α)
    (hpre : ∀ y ∈ pre, p y = false) (hx : p x = true) :
    (pre ++ x :: post).find? p = some x := by
  induction pre with
  | nil => simp [List.find?, hx]
  | cons a t ih =>
    have ha : p a = false := hpre a (by simp)
    have ht : ∀ y ∈ t, p y = false := fun y hy => hpre y (by simp [hy])
    simpa [List.find?, ha] using ih ht

/-! ## Evaluation of the create route along each branch -/

theorem create_of_valid_member (isISO8601 : String → Bool) (s : Store) (newId : ObjectId)
    (now : String) (user : AuthUser) (body : CreateBody) (g : FamilyGroup)
    (hvalid : validateEventCreation isISO8601 body = [])
    (hfind : FamilyGroup.findOne s.groups (body.unique_code.getD "") = some g)
    (hmem : ∃ m ∈ g.members, m.user_id = user.id)
    (hcap : g.members.length ≤ 100) :
    create isISO8601 s newId now user body =
      ({ groups := updateOne (fun x => x._id == g._id)
          (fun x => { x with events := x.events ++
            [{ event_id := newId, user_id := user.id, title := body.title.getD "" }] }) s.groups,
         events := s.events ++
          [{ _id := newId, family_group_id := g._id, user_id := user.id,
             title := body.title.getD "", description := body.description.getD "",
             date := body.date.getD "",
             interested := (g.members.take 100).map
               (fun member => { user_id := member.user_id, isInterested := false }),
             createdAt := now }] },
        .ok 201 { message := "Event created successfully",
                  event :=
                    { _id := newId, family_group_id := g._id, user_id := user.id,
                      title := body.title.getD "", description := body.description.getD "",
                      date := body.date.getD "",
                      interested := (g.members.take 100).map
                        (fun member => { user_id := member.user_id, isInterested := false }),
                      createdAt := now },
                  full_name := user.full_name }) := by
  have hany : g.members.any (fun member => member.user_id == user.id) = true := by
    simpa [List.any_eq_true] using hmem
  have hnot : ¬ g.members.length > max_members := by simp [max_members]; exact hcap
  simp only [create, hvalid, hfind, hany, hnot]
  simp [max_members]

theorem create_of_over_capacity (isISO8601 : String → Bool) (s : Store) (newId : ObjectId)
    (now : String) (user : AuthUser) (body : CreateBody) (g : FamilyGroup)
    (hvalid : validateEventCreation isISO8601 body = [])
    (hfind : FamilyGroup.findOne s.groups (body.unique_code.getD "") = some g)
    (hmem : ∃ m ∈ g.members, m.user_id = user.id)
    (hcap : 100 < g.members.length) :
    create isISO8601 s newId now user body =
      (s, .fail 400 "Family group has too many members (limit: 100)") := by
  have hany : g.members.any (fun member => member.user_id == user.id) = true := by
    simpa [List.any_eq_true] using hmem
  have hover : g.members.length > max_members := by simp [max_members]; exact hcap
  have hmsg : ("Family group has too many members (limit: " ++ toString max_members ++ ")")
      = "Family group has too many members (limit: 100)" := by decide
  simp only [create, hvalid, hfind, hany, hover, hmsg]
  simp

theorem create_of_nonmember (isISO8601 : String → Bool) (s : Store) (newId : ObjectId)
    (now : String) (user : AuthUser) (body : CreateBody) (g : FamilyGroup)
    (hvalid : validateEventCreation isISO8601 body = [])
    (hfind : FamilyGroup.findOne s.groups (body.unique_code.getD "") = some g)
    (hnon : ∀ m ∈ g.members, m.user_id ≠ user.id) :
    create isISO8601 s newId now user body =
      (s, .fail 403 "You are not a member of this family group") := by
  have hany : g.members.any (fun member => member.user_id == user.id) = false := by
    simpa [List.any_eq_false] using hnon
  simp only [create, hvalid, hfind, hany]
  simp

theorem create_of_invalid (isISO8601 : String → Bool) (s : Store) (newId : ObjectId)
    (now : String) (user : AuthUser) (body : CreateBody)
    (hinvalid : validateEventCreation isISO8601 body ≠ []) :
    create isISO8601 s newId now user body =
      (s, .invalid (validateEventCreation isISO8601 body)) := by
  simp [create, hinvalid]

end Gatherly

namespace Gatherly

/-! ## Claims on the create route -/

/-- C1: when a valid create request names a group `g` with at most 100
members and comes from a member of `g`, the route answers 201 with an event
that is the one record appended to the Event collection, and whose
`interested` list has exactly as many entries as `g.members` (which is
`min (members.length) 100`), every entry with `isInterested = false`, and the
`user_id` at each index equal to the `user_id` of the member at that index. -/
theorem create_interested_snapshot (isISO8601 : String → Bool) (s : Store) (newId : ObjectId)
    (now : String) (user : AuthUser) (body : CreateBody) (g : FamilyGroup)
    (hvalid : validateEventCreation isISO8601 body = [])
    (hfind : FamilyGroup.findOne s.groups (body.unique_code.getD "") = some g)
    (hmem : ∃ m ∈ g.members, m.user_id = user.id)
    (hcap : g.members.length ≤ 100) :
    ∃ ok : CreateOk,
      (create isISO8601 s newId now user body).2 = .ok 201 ok ∧
      (create isISO8601 s newId now user body).1.events = s.events ++ [ok.event] ∧
      ok.event.interested.length = g.members.length ∧
      ok.event.interested.length = min g.members.length 100 ∧
      (∀ x ∈ ok.event.interested, x.isInterested = false) ∧
      (∀ i : Nat, (ok.event.interested[i]?).map Interest.user_id =
        (g.members[i]?).map Member.user_id) := by
  rw [create_of_valid_member isISO8601 s newId now user body g hvalid hfind hmem hcap]
  refine ⟨_, rfl, rfl, ?_, ?_, ?_, ?_⟩
  · simp [hcap]
  · simp [Nat.min_comm]
  · intro x hx
    simp only [List.mem_map] at hx
    obtain ⟨m, _, rfl⟩ := hx
    rfl
  · intro i
    have htake : g.members.take 100 = g.members := List.take_of_length_le hcap
    simp only [htake, List.getElem?_map, Option.map_map]
    rfl

theorem create_interested_snapshot_witness :
    validateEventCreation sampleISO sampleBody = [] ∧
    FamilyGroup.findOne sampleStore.groups (sampleBody.unique_code.getD "") = some sampleGroup ∧
    (∃ m ∈ sampleGroup.members, m.user_id = u1.id) ∧
    sampleGroup.members.length ≤ 100 ∧
    ∃ ok : CreateOk,
      (create sampleISO sampleStore 100 "t0" u1 sampleBody).2 = .ok 201 ok ∧
      (create sampleISO sampleStore 100 "t0" u1 sampleBody).1.events =
        sampleStore.events ++ [ok.event] ∧
      ok.event.interested.length = sampleGroup.members.length ∧
      ok.event.interested.length = min sampleGroup.members.length 100 ∧
      (∀ x ∈ ok.event.interested, x.isInterested = false) ∧
      (∀ i : Nat, (ok.event.interested[i]?).map Interest.user_id =
        (sampleGroup.members[i]?).map Member.user_id) :=
  ⟨by decide, by decide, ⟨{ user_id := 10 }, by decide, rfl⟩, by decide,
    create_interested_snapshot sampleISO sampleStore 100 "t0" u1 sampleBody sampleGroup
      (by decide) (by decide) ⟨{ user_id := 10 }, by decide, rfl⟩ (by decide)⟩

end Gatherly

namespace Gatherly

/-- C2: for a valid create request that names a group `g` and comes from a
member of `g`: with more than 100 members the route answers 400 with the
capacity message and the store is returned unchanged (no Event record, no
summary); with exactly 100 members it answers 201, the event (with 100
`interested` entries) is appended to the Event collection and its summary
to the events of the group document that carries the id of `g`; and the
capacity answer is given if and only if `g` has more than 100 members. -/
theorem create_capacity_boundary (isISO8601 : String → Bool) (s : Store) (newId : ObjectId)
    (now : String) (user : AuthUser) (body : CreateBody) (g : FamilyGroup)
    (hvalid : validateEventCreation isISO8601 body = [])
    (hfind : FamilyGroup.findOne s.groups (body.unique_code.getD "") = some g)
    (hmem : ∃ m ∈ g.members, m.user_id = user.id) :
    (100 < g.members.length →
      create isISO8601 s newId now user body =
        (s, .fail 400 "Family group has too many members (limit: 100)")) ∧
    (g.members.length = 100 →
      ∃ ok : CreateOk,
        (create isISO8601 s newId now user body).2 = .ok 201 ok ∧
        ok.event._id = newId ∧
        ok.event.interested.length = 100 ∧
        (create isISO8601 s newId now user body).1.events = s.events ++ [ok.event] ∧
        ∃ pre g0 post, s.groups = pre ++ g0 :: post ∧ g0._id = g._id ∧
          (∀ x ∈ pre, x._id ≠ g._id) ∧
          (create isISO8601 s newId now user body).1.groups =
            pre ++ { g0 with events := g0.events ++
              [{ event_id := newId, user_id := user.id, title := ok.event.title }] } :: post) ∧
    ((create isISO8601 s newId now user body).2 =
        .fail 400 "Family group has too many members (limit: 100)" ↔
      100 < g.members.length) := by
  refine ⟨?_, ?_, ?_⟩
  · intro hcap
    exact create_of_over_capacity isISO8601 s newId now user body g hvalid hfind hmem hcap
  · intro hlen
    rw [create_of_valid_member isISO8601 s newId now user body g hvalid hfind hmem (by omega)]
    refine ⟨_, rfl, rfl, by simp [hlen], rfl, ?_⟩
    have hg : g ∈ s.groups := List.mem_of_find?_eq_some hfind
    have hsome : ∃ g0, s.groups.find? (fun x => x._id == g._id) = some g0 := by
      cases h : s.groups.find? (fun x => x._id == g._id) with
      | some g0 => exact ⟨g0, rfl⟩
      | none =>
        have := List.find?_eq_none.mp h g hg
        simp at this
    obtain ⟨g0, hg0⟩ := hsome
    obtain ⟨pre, post, h1, h2, h3⟩ := updateOne_of_find (fun x => x._id == g._id)
      (fun x => { x with events := x.events ++
        [{ event_id := newId, user_id := user.id, title := body.title.getD "" }] })
      s.groups g0 hg0
    have hid : g0._id = g._id := by simpa using List.find?_some hg0
    refine ⟨pre, g0, post, h1, hid, ?_, h3⟩
    intro x hx
    simpa using h2 x hx
  · constructor
    · intro h
      by_contra hcap
      rw [create_of_valid_member isISO8601 s newId now user body g hvalid hfind hmem
        (by omega)] at h
      simp at h
    · intro hcap
      rw [create_of_over_capacity isISO8601 s newId now user body g hvalid hfind hmem hcap]

theorem create_capacity_boundary_witness :
    validateEventCreation sampleISO bigBody = [] ∧
    FamilyGroup.findOne bigStore.groups (bigBody.unique_code.getD "") = some bigGroup ∧
    (∃ m ∈ bigGroup.members, m.user_id = u1.id) ∧
    100 < bigGroup.members.length ∧
    create sampleISO bigStore 100 "t0" u1 bigBody =
      (bigStore, .fail 400 "Family group has too many members (limit: 100)") :=
  ⟨by decide, by decide, ⟨{ user_id := 10 }, by decide, rfl⟩, by decide,
    (create_capacity_boundary sampleISO bigStore 100 "t0" u1 bigBody bigGroup
      (by decide) (by decide) ⟨{ user_id := 10 }, by decide, rfl⟩).1 (by decide)⟩

end Gatherly

namespace Gatherly

/-! ## Claims on the pagination arithmetic -/

theorem one_le_limit (pageQ limitQ : Option Int) (total : Nat) :
    1 ≤ (paginate pageQ limitQ total).limit := by
  simp [paginate]

/-- The integer formula for `totalPages` is the ceiling of the exact quotient. -/
theorem ceil_div_formula (total : Nat) (l : Int) (hl : 1 ≤ l) :
    ((total : Int) + l - 1) / l = ⌈((total : ℚ) / (l : ℚ))⌉ := by
  symm
  rw [Int.ceil_eq_iff]
  have hlpos : (0 : Int) < l := by omega
  have hlq : (0 : ℚ) < (l : ℚ) := by exact_mod_cast hlpos
  have hdm := Int.ediv_add_emod ((total : Int) + l - 1) l
  have hr0 := Int.emod_nonneg ((total : Int) + l - 1) (by omega : l ≠ 0)
  have hr1 := Int.emod_lt_of_pos ((total : Int) + l - 1) hlpos
  set q := ((total : Int) + l - 1) / l with hq
  set r := ((total : Int) + l - 1) % l with hr
  have h1 : (q - 1) * l < (total : Int) := by nlinarith
  have h2 : (total : Int) ≤ q * l := by nlinarith
  constructor
  · rw [lt_div_iff₀ hlq]
    have : (((q - 1) * l : Int) : ℚ) < ((total : Int) : ℚ) := by exact_mod_cast h1
    push_cast at this
    simpa using this
  · rw [div_le_iff₀ hlq]
    have : (((total : Int)) : ℚ) ≤ ((q * l : Int) : ℚ) := by exact_mod_cast h2
    push_cast at this
    simpa using this

/-- C3 (as stated, refuted): for page = 0, limit = 0 and total = 25 the
listing route computes the limit 10 and 3 pages, not the limit
`max 1 0 = 1` and 25 pages; and for page `2 ^ 53` and limit 3 its skip is
the rounded product 27021597764222972, not `(page - 1) * limit`, which is
27021597764222973. -/
theorem paginate_zero_limit_not_clamped :
    paginate (some 0) (some 0) 25 = { page := 1, limit := 10, skip := 0, totalPages := 3 } ∧
    ¬ ((paginate (some 0) (some 0) 25).limit = max 1 0 ∧
       (paginate (some 0) (some 0) 25).skip = 0 ∧
       (paginate (some 0) (some 0) 25).totalPages = 25) ∧
    (paginate (some 9007199254740992) (some 3) 0).skip = 27021597764222972 ∧
    (paginate (some 9007199254740992) (some 3) 0).skip ≠
      ((paginate (some 9007199254740992) (some 3) 0).page - 1) *
        (paginate (some 9007199254740992) (some 3) 0).limit := by
  decide

theorem one_le_page (pageQ limitQ : Option Int) (total : Nat) :
    1 ≤ (paginate pageQ limitQ total).page := by
  simp [paginate]

/-- Up to `2 ^ 53` an integer is its own double. -/
theorem roundDouble_of_range (n : Int) (h0 : 0 ≤ n) (h1 : n ≤ 2 ^ 53) : roundDouble n = n := by
  have h : n.natAbs ≤ 2 ^ 53 := by omega
  unfold roundDouble
  exact if_pos h

/-- In the exact range the argument of `.skip(...)` is the exact product. -/
theorem paginate_skip_of_range (pageQ limitQ : Option Int) (total : Nat)
    (hrange : ExactRange (paginate pageQ limitQ total).page
      (paginate pageQ limitQ total).limit total) :
    (paginate pageQ limitQ total).skip =
      ((paginate pageQ limitQ total).page - 1) * (paginate pageQ limitQ total).limit := by
  have hp1 := one_le_page pageQ limitQ total
  have hl1 := one_le_limit pageQ limitQ total
  obtain ⟨hp2, _, hs2, _⟩ := hrange
  have hsub : roundDouble ((paginate pageQ limitQ total).page - 1) =
      (paginate pageQ limitQ total).page - 1 :=
    roundDouble_of_range _ (by omega) (by omega)
  have hnonneg : 0 ≤ ((paginate pageQ limitQ total).page - 1) *
      (paginate pageQ limitQ total).limit :=
    Int.mul_nonneg (by omega) (by omega)
  have hmul := roundDouble_of_range _ hnonneg hs2
  show roundDouble (roundDouble ((paginate pageQ limitQ total).page - 1) *
    (paginate pageQ limitQ total).limit) = _
  rw [hsub, hmul]

theorem paginate_page (pageQ limitQ : Option Int) (total : Nat) :
    (paginate pageQ limitQ total).page =
      (match pageQ with
        | none => 1
        | some p => max 1 p) := by
  cases pageQ with
  | none => simp [paginate, parseIntOr]
  | some p =>
    by_cases hp : p = 0
    · subst hp; simp [paginate, parseIntOr]
    · simp [paginate, parseIntOr, hp]

theorem paginate_limit (pageQ limitQ : Option Int) (total : Nat) :
    (paginate pageQ limitQ total).limit =
      (match limitQ with
        | none => 10
        | some l => if l = 0 then 10 else max 1 l) := by
  cases limitQ with
  | none => simp [paginate, parseIntOr]
  | some l =>
    by_cases hl : l = 0
    · subst hl; simp [paginate, parseIntOr]
    · simp [paginate, parseIntOr, hl]

/-- C3 (amended): the page is 1 when the parameter is absent or not a
number and `max 1 page` otherwise; the limit is 10 when the parameter is
absent, not a number or 0, and `max 1 limit` otherwise; and when page,
limit and `(page - 1) * limit` are at most `2 ^ 53` and the total is below
`2 ^ 53` (the range in which the doubles of the handler are exact),
`skip = (page - 1) * limit` and `totalPages` is the ceiling of
`total / limit`. For page = 0, limit = 0, total = 25 this gives skip 0,
limit 10 and 3 pages. -/
theorem paginate_clamps (pageQ limitQ : Option Int) (total : Nat) :
    (paginate pageQ limitQ total).page =
      (match pageQ with
        | none => 1
        | some p => max 1 p) ∧
    (paginate pageQ limitQ total).limit =
      (match limitQ with
        | none => 10
        | some l => if l = 0 then 10 else max 1 l) ∧
    (ExactRange (paginate pageQ limitQ total).page (paginate pageQ limitQ total).limit total →
      (paginate pageQ limitQ total).skip =
        ((paginate pageQ limitQ total).page - 1) * (paginate pageQ limitQ total).limit ∧
      (paginate pageQ limitQ total).totalPages =
        ⌈((total : ℚ) / ((paginate pageQ limitQ total).limit : ℚ))⌉) ∧
    (paginate (some 0) (some 0) 25).skip = 0 ∧
    (paginate (some 0) (some 0) 25).limit = 10 ∧
    (paginate (some 0) (some 0) 25).totalPages = 3 := by
  refine ⟨paginate_page pageQ limitQ total, paginate_limit pageQ limitQ total, ?_,
    by decide, by decide, by decide⟩
  · intro hrange
    exact ⟨paginate_skip_of_range pageQ limitQ total hrange,
      ceil_div_formula total _ (one_le_limit pageQ limitQ total)⟩

theorem paginate_clamps_witness :
    ExactRange (paginate (some 3) (some 4) 25).page (paginate (some 3) (some 4) 25).limit 25 ∧
    (paginate (some 3) (some 4) 25).skip =
      ((paginate (some 3) (some 4) 25).page - 1) * (paginate (some 3) (some 4) 25).limit ∧
    (paginate (some 3) (some 4) 25).totalPages =
      ⌈((25 : ℚ) / ((paginate (some 3) (some 4) 25).limit : ℚ))⌉ :=
  have h : ExactRange (paginate (some 3) (some 4) 25).page
      (paginate (some 3) (some 4) 25).limit 25 := by
    unfold ExactRange
    decide
  ⟨h, ((paginate_clamps (some 3) (some 4) 25).2.2.1 h).1,
    by simpa using ((paginate_clamps (some 3) (some 4) 25).2.2.1 h).2⟩

end Gatherly

namespace Gatherly

/-! ## Claims on the edit route -/

theorem event_findById_id (coll : List Event) (id : ObjectId) (event : Event)
    (h : Event.findById coll id = some event) : event._id = id := by
  simpa using List.find?_some h

theorem group_findById_id (coll : List FamilyGroup) (id : ObjectId) (g : FamilyGroup)
    (h : FamilyGroup.findById coll id = some g) : g._id = id := by
  simpa using List.find?_some h

theorem edit_of_creator (s : Store) (user : AuthUser) (eventId : ObjectId) (body : EditBody)
    (event : Event)
    (hfind : Event.findById s.events eventId = some event)
    (hown : event.user_id = user.id) :
    edit s user eventId body =
      ({ groups := s.groups, events := updateOne (fun e => e._id == event._id)
          (fun e => { e with title := orKeep body.title event.title,
                             description := orKeep body.description event.description,
                             date := orKeep body.date event.date }) s.events },
        .ok 200 { message := "Event updated successfully",
                  event := { event with title := orKeep body.title event.title,
                                        description := orKeep body.description event.description,
                                        date := orKeep body.date event.date } }) := by
  have hne : (event.user_id != user.id) = false := by simp [hown]
  simp only [edit, hfind, hne]
  simp

/-- C4: when the creator of an existing event edits it, the route answers
200 with the event in which each of title, description and date is the
value of the request if that value is present and not empty and the old
value otherwise, and whose id, creator, group, interested list and creation
time are the old ones; in the store the groups (members, summaries,
messages) are untouched and the Event collection differs only in that the
edited record stands where the old one stood. -/
theorem edit_by_creator (s : Store) (user : AuthUser) (eventId : ObjectId) (body : EditBody)
    (event : Event)
    (hfind : Event.findById s.events eventId = some event)
    (hown : event.user_id = user.id) :
    ∃ ok : EditOk,
      (edit s user eventId body).2 = .ok 200 ok ∧
      ok.event.title =
        (match body.title with
          | none => event.title
          | some t => if t = "" then event.title else t) ∧
      ok.event.description =
        (match body.description with
          | none => event.description
          | some d => if d = "" then event.description else d) ∧
      ok.event.date =
        (match body.date with
          | none => event.date
          | some d => if d = "" then event.date else d) ∧
      ok.event._id = event._id ∧
      ok.event.user_id = event.user_id ∧
      ok.event.family_group_id = event.family_group_id ∧
      ok.event.interested = event.interested ∧
      ok.event.createdAt = event.createdAt ∧
      (edit s user eventId body).1.groups = s.groups ∧
      ∃ pre post, s.events = pre ++ event :: post ∧ (∀ x ∈ pre, x._id ≠ eventId) ∧
        (edit s user eventId body).1.events = pre ++ ok.event :: post := by
  have hid : event._id = eventId := event_findById_id s.events eventId event hfind
  have hfind2 : s.events.find? (fun e => e._id == event._id) = some event := by
    rw [hid]; exact hfind
  obtain ⟨pre, post, h1, h2, h3⟩ := updateOne_of_find (fun e => e._id == event._id)
    (fun e => { e with title := orKeep body.title event.title,
                       description := orKeep body.description event.description,
                       date := orKeep body.date event.date })
    s.events event hfind2
  have hpre : ∀ x ∈ pre, x._id ≠ eventId := fun x hx => by
    have := h2 x hx
    rw [hid] at this
    simpa using this
  rw [edit_of_creator s user eventId body event hfind hown]
  refine ⟨_, rfl, ?_, ?_, ?_, rfl, rfl, rfl, rfl, rfl, rfl, pre, post, h1, hpre, h3⟩
  · cases body.title <;> rfl
  · cases body.description <;> rfl
  · cases body.date <;> rfl

theorem edit_by_creator_witness :
    Event.findById eventStore.events 100 = some sampleEvent ∧
    sampleEvent.user_id = u1.id ∧
    ∃ ok : EditOk,
      (edit eventStore u1 100 titleOnly).2 = .ok 200 ok ∧
      ok.event.title =
        (match titleOnly.title with
          | none => sampleEvent.title
          | some t => if t = "" then sampleEvent.title else t) ∧
      ok.event.description =
        (match titleOnly.description with
          | none => sampleEvent.description
          | some d => if d = "" then sampleEvent.description else d) ∧
      ok.event.date =
        (match titleOnly.date with
          | none => sampleEvent.date
          | some d => if d = "" then sampleEvent.date else d) ∧
      ok.event._id = sampleEvent._id ∧
      ok.event.user_id = sampleEvent.user_id ∧
      ok.event.family_group_id = sampleEvent.family_group_id ∧
      ok.event.interested = sampleEvent.interested ∧
      ok.event.createdAt = sampleEvent.createdAt ∧
      (edit eventStore u1 100 titleOnly).1.groups = eventStore.groups ∧
      ∃ pre post, eventStore.events = pre ++ sampleEvent :: post ∧
        (∀ x ∈ pre, x._id ≠ 100) ∧
        (edit eventStore u1 100 titleOnly).1.events = pre ++ ok.event :: post :=
  ⟨by decide, by decide, edit_by_creator eventStore u1 100 titleOnly sampleEvent
    (by decide) (by decide)⟩

/-- The scenario of the specification: editing only the title to "New". -/
theorem edit_title_only_sample : (edit eventStore u1 100 titleOnly).2 =
    .ok 200 { message := "Event updated successfully",
              event := { sampleEvent with title := "New" } } := by decide

end Gatherly

namespace Gatherly

/-! ## Claims on create followed by delete -/

theorem updateOne_of_split {α : Type} (p : α → Bool) (f : α → α) (pre post : List α) (x : α)
    (hpre : ∀ y ∈ pre, p y = false) (hx : p x = true) :
    updateOne p f (pre ++ x :: post) = pre ++ f x :: post := by
  induction pre with
  | nil => simp [updateOne, hx]
  | cons a t ih =>
    have ha : p a = false := hpre a (by simp)
    have ht : ∀ y ∈ t, p y = false := fun y hy => hpre y (by simp [hy])
    simp [updateOne, ha, ih ht]

theorem eraseP_of_split {α : Type} (p : α → Bool) (pre post : List α) (x : α)
    (hpre : ∀ y ∈ pre, p y = false) (hx : p x = true) :
    (pre ++ x :: post).eraseP p = pre ++ post := by
  induction pre with
  | nil => simp [List.eraseP, hx]
  | cons a t ih =>
    have ha : p a = false := hpre a (by simp)
    have ht : ∀ y ∈ t, p y = false := fun y hy => hpre y (by simp [hy])
    simp [List.eraseP, ha, ih ht]

theorem find_none_of_forall {α : Type} (p : α → Bool) (l : List α)
    (h : ∀ y ∈ l, p y = false) : l.find? p = none := by
  rw [List.find?_eq_none]
  intro y hy
  simp [h y hy]

theorem find_some_of_mem {α : Type} (p : α → Bool) (l : List α) (x : α)
    (hx : x ∈ l) (hp : p x = true) : ∃ y, l.find? p = some y := by
  cases h : l.find? p with
  | some y => exact ⟨y, rfl⟩
  | none =>
    have := List.find?_eq_none.mp h x hx
    simp [hp] at this

/-- A 2xx answer of the create route means that every gate was passed. -/
theorem create_ok_inv (isISO8601 : String → Bool) (s : Store) (newId : ObjectId)
    (now : String) (user : AuthUser) (body : CreateBody) (st : Nat) (ok : CreateOk)
    (h : (create isISO8601 s newId now user body).2 = .ok st ok) :
    ∃ g, validateEventCreation isISO8601 body = [] ∧
      FamilyGroup.findOne s.groups (body.unique_code.getD "") = some g ∧
      (∃ m ∈ g.members, m.user_id = user.id) ∧ g.members.length ≤ 100 := by
  by_cases hv : validateEventCreation isISO8601 body = []
  · cases hf : FamilyGroup.findOne s.groups (body.unique_code.getD "") with
    | none =>
      simp [create, hv, hf] at h
    | some g =>
      by_cases hm : ∀ m ∈ g.members, m.user_id ≠ user.id
      · rw [create_of_nonmember isISO8601 s newId now user body g hv hf hm] at h
        simp at h
      · have hmem : ∃ m ∈ g.members, m.user_id = user.id := by
          simpa using hm
        by_cases hc : g.members.length ≤ 100
        · exact ⟨g, hv, rfl, hmem, hc⟩
        · rw [create_of_over_capacity isISO8601 s newId now user body g hv hf hmem
            (by omega)] at h
          simp at h
  · rw [create_of_invalid isISO8601 s newId now user body hv] at h
    simp at h

end Gatherly

namespace Gatherly

/-- Every event of a 2xx listing answer is a record of the Event collection
that belongs to the requested group. -/
theorem listForGroup_ok_mem (s : Store) (viewer : AuthUser) (gid : ObjectId)
    (pageQ limitQ : Option Int) (st : Nat) (lok : ListOk)
    (h : (listForGroup s viewer (.wellFormed gid) pageQ limitQ).2 = .ok st lok) :
    ∀ e ∈ lok.events, e ∈ s.events ∧ e.family_group_id = gid := by
  cases hf : FamilyGroup.findById s.groups gid with
  | none => simp [listForGroup, hf] at h
  | some g =>
    have hid : g._id = gid := group_findById_id s.groups gid g hf
    by_cases hm : g.members.any (fun member => member.user_id == viewer.id) = true
    · simp only [listForGroup, hf, hm] at h
      simp only [Bool.not_true, Bool.false_eq_true, if_false, Response.ok.injEq] at h
      obtain ⟨_, rfl⟩ := h
      intro e he
      have he2 : e ∈ Event.find s.events g._id :=
        List.mem_of_mem_drop (List.mem_of_mem_take he)
      simp only [Event.find, List.mem_filter, beq_iff_eq] at he2
      exact ⟨he2.1, he2.2.trans hid⟩
    · have hm2 : g.members.any (fun member => member.user_id == viewer.id) = false := by
        simpa using hm
      simp [listForGroup, hf, hm2] at h

/-- The create route on its success path, with the new record kept abstract. -/
theorem create_shape (isISO8601 : String → Bool) (s : Store) (newId : ObjectId)
    (now : String) (user : AuthUser) (body : CreateBody) (g : FamilyGroup)
    (hvalid : validateEventCreation isISO8601 body = [])
    (hfind : FamilyGroup.findOne s.groups (body.unique_code.getD "") = some g)
    (hmem : ∃ m ∈ g.members, m.user_id = user.id)
    (hcap : g.members.length ≤ 100) :
    ∃ e : Event, e._id = newId ∧ e.user_id = user.id ∧ e.family_group_id = g._id ∧
      create isISO8601 s newId now user body =
        ({ groups := updateOne (fun x => x._id == g._id)
            (fun x => { x with events := x.events ++
              [{ event_id := newId, user_id := user.id, title := body.title.getD "" }] })
            s.groups,
           events := s.events ++ [e] },
          .ok 201 { message := "Event created successfully", event := e,
                    full_name := user.full_name }) :=
  ⟨_, rfl, rfl, rfl,
    create_of_valid_member isISO8601 s newId now user body g hvalid hfind hmem hcap⟩

/-- The store and the answer of a delete by the creator right after a
successful create, under the assumption that the new id is fresh. -/
theorem delete_after_create (isISO8601 : String → Bool) (s : Store) (newId : ObjectId)
    (now : String) (user : AuthUser) (body : CreateBody) (g : FamilyGroup)
    (hvalid : validateEventCreation isISO8601 body = [])
    (hfind : FamilyGroup.findOne s.groups (body.unique_code.getD "") = some g)
    (hmem : ∃ m ∈ g.members, m.user_id = user.id)
    (hcap : g.members.length ≤ 100)
    (hfresh : ∀ e ∈ s.events, e._id ≠ newId) :
    ∃ pre g0 post, s.groups = pre ++ g0 :: post ∧ g0._id = g._id ∧
      (∀ x ∈ pre, x._id ≠ g._id) ∧
      delete (create isISO8601 s newId now user body).1 user (.wellFormed newId) =
        ({ groups := pre ++
              { g0 with events := g0.events.filter (fun x => !(x.event_id == newId)) } :: post,
           events := s.events },
          .ok 200 { message := "Event deleted successfully" }) := by
  obtain ⟨e, he1, he2, he3, hc⟩ :=
    create_shape isISO8601 s newId now user body g hvalid hfind hmem hcap
  rw [hc]
  have hg : g ∈ s.groups := List.mem_of_find?_eq_some hfind
  obtain ⟨g0, hg0⟩ := find_some_of_mem (fun x => x._id == g._id) s.groups g hg (by simp)
  obtain ⟨pre, post, h1, h2, h3⟩ := updateOne_of_find (fun x => x._id == g._id)
    (fun x => { x with events := x.events ++
      [{ event_id := newId, user_id := user.id, title := body.title.getD "" }] })
    s.groups g0 hg0
  have hid : g0._id = g._id := by simpa using List.find?_some hg0
  refine ⟨pre, g0, post, h1, hid, fun x hx => by simpa using h2 x hx, ?_⟩
  have hev : Event.findById (s.events ++ [e]) newId = some e :=
    find_of_split (fun x : Event => x._id == newId) s.events [] e
      (fun y hy => by simpa using hfresh y hy) (by simp [he1])
  have her : Event.findByIdAndDelete (s.events ++ [e]) newId = s.events := by
    have := eraseP_of_split (fun e : Event => e._id == newId) s.events [] e
      (fun y hy => by simpa using hfresh y hy) (by simp [he1])
    simpa [Event.findByIdAndDelete] using this
  have hgf := find_of_split (fun x : FamilyGroup => x._id == g._id) pre post
    { g0 with events := g0.events ++
        [{ event_id := newId, user_id := user.id, title := body.title.getD "" }] }
    h2 (by simp [hid])
  have hgu := updateOne_of_split (fun x : FamilyGroup => x._id == g._id)
    (fun x => { x with events := x.events.filter (fun y => !(y.event_id == newId)) })
    pre post
    { g0 with events := g0.events ++
        [{ event_id := newId, user_id := user.id, title := body.title.getD "" }] }
    h2 (by simp [hid])
  have hne : (e.user_id != user.id) = false := by simp [he2]
  simp only [delete, hev, hne, h3, FamilyGroup.findByIdAndUpdate, FamilyGroup.findById,
    he3, hgf, hgu, her]
  simp

end Gatherly

namespace Gatherly

/-- C5: let a create answer 201 with event `ok.event` and leave the store
`s1`, the new id being fresh among the Event records. Then a delete of that
event by its creator answers 200; in the store it leaves, the group with
the event's `family_group_id` has no summary with the event's id, no Event
record has that id, no listing of that group (any viewer, page or limit)
contains an event with that id, and a further delete of the same id by
anyone answers 404 "Event not found" and returns the store as it is. -/
theorem create_then_delete (isISO8601 : String → Bool) (s s1 : Store) (newId : ObjectId)
    (now : String) (user : AuthUser) (body : CreateBody) (ok : CreateOk)
    (hfresh : ∀ e ∈ s.events, e._id ≠ newId)
    (hcreate : create isISO8601 s newId now user body = (s1, .ok 201 ok)) :
    ok.event._id = newId ∧
    (delete s1 user (.wellFormed ok.event._id)).2 =
      .ok 200 { message := "Event deleted successfully" } ∧
    (∃ g2, FamilyGroup.findById (delete s1 user (.wellFormed ok.event._id)).1.groups
        ok.event.family_group_id = some g2 ∧
      ∀ x ∈ g2.events, x.event_id ≠ ok.event._id) ∧
    (∀ e ∈ (delete s1 user (.wellFormed ok.event._id)).1.events, e._id ≠ ok.event._id) ∧
    (∀ (viewer : AuthUser) (pageQ limitQ : Option Int) (st : Nat) (lok : ListOk),
      (listForGroup (delete s1 user (.wellFormed ok.event._id)).1 viewer
        (.wellFormed ok.event.family_group_id) pageQ limitQ).2 = .ok st lok →
      ∀ e ∈ lok.events, e._id ≠ ok.event._id) ∧
    (∀ anyone : AuthUser,
      delete (delete s1 user (.wellFormed ok.event._id)).1 anyone
          (.wellFormed ok.event._id) =
        ((delete s1 user (.wellFormed ok.event._id)).1, .fail 404 "Event not found")) := by
  have h2 : (create isISO8601 s newId now user body).2 = .ok 201 ok := by rw [hcreate]
  obtain ⟨g, hvalid, hfind, hmem, hcap⟩ :=
    create_ok_inv isISO8601 s newId now user body 201 ok h2
  obtain ⟨e, he1, he2, he3, hc⟩ :=
    create_shape isISO8601 s newId now user body g hvalid hfind hmem hcap
  obtain ⟨pre, g0, post, hs, hid, hpre, hdel⟩ :=
    delete_after_create isISO8601 s newId now user body g hvalid hfind hmem hcap hfresh
  have hs1 : (create isISO8601 s newId now user body).1 = s1 := by rw [hcreate]
  have hok : ok.event = e := by
    rw [hc] at hcreate
    simp only [Prod.mk.injEq, Response.ok.injEq, true_and] at hcreate
    rw [← hcreate.2]
  rw [hs1] at hdel
  have hokid : ok.event._id = newId := by rw [hok, he1]
  have hokg : ok.event.family_group_id = g._id := by rw [hok, he3]
  rw [hokid, hokg, hdel]
  have hev : ∀ x ∈ s.events, (x._id == newId) = false := fun x hx => by
    simpa using hfresh x hx
  refine ⟨rfl, rfl, ?_, hfresh, ?_, ?_⟩
  · refine ⟨_, find_of_split (fun x : FamilyGroup => x._id == g._id) pre post _
      (fun y hy => by simpa using hpre y hy) (by simp [hid]), ?_⟩
    intro x hx
    simp only [List.mem_filter] at hx
    simpa using hx.2
  · intro viewer pageQ limitQ st lok hl e' he'
    have := (listForGroup_ok_mem _ viewer g._id pageQ limitQ st lok hl e' he').1
    exact hfresh e' this
  · intro anyone
    have hnone : Event.findById s.events newId = none :=
      find_none_of_forall (fun x : Event => x._id == newId) s.events hev
    simp [delete, hnone]

theorem create_then_delete_witness :
    (∀ e ∈ sampleStore.events, e._id ≠ 100) ∧
    create sampleISO sampleStore 100 "t0" u1 sampleBody =
      (eventStore, .ok 201 { message := "Event created successfully", event := sampleEvent,
                             full_name := "Ana" }) ∧
    (delete eventStore u1 (.wellFormed 100)).2 =
      .ok 200 { message := "Event deleted successfully" } ∧
    (∀ e ∈ (delete eventStore u1 (.wellFormed 100)).1.events, e._id ≠ 100) :=
  have h := create_then_delete sampleISO sampleStore eventStore 100 "t0" u1 sampleBody
    { message := "Event created successfully", event := sampleEvent, full_name := "Ana" }
    (by decide) (by decide)
  ⟨by decide, by decide, h.2.1, h.2.2.2.1⟩

end Gatherly

namespace Gatherly

/-! ## Claims on the chat hub -/

theorem sendMessage_of_missing (s : Store) (clients : List SocketId) (socket : SocketId)
    (now : String) (data : SendPayload)
    (hnone : ∀ g ∈ s.groups, g._id ≠ data.familyGroupId) :
    sendMessage s clients socket now data =
      (s, [{ target := socket, signal := .error "Family group not found" }]) := by
  have hf : FamilyGroup.findById s.groups data.familyGroupId = none :=
    find_none_of_forall (fun g : FamilyGroup => g._id == data.familyGroupId) s.groups
      (fun g hg => by simpa using hnone g hg)
  simp [sendMessage, FamilyGroup.findByIdAndUpdate, hf]

theorem sendMessage_of_found (s : Store) (clients : List SocketId) (socket : SocketId)
    (now : String) (data : SendPayload) (g : FamilyGroup)
    (hfind : FamilyGroup.findById s.groups data.familyGroupId = some g) :
    ∃ pre post, s.groups = pre ++ g :: post ∧
      (∀ x ∈ pre, x._id ≠ data.familyGroupId) ∧
      sendMessage s clients socket now data =
        ({ groups := pre ++
              { g with mensahe := g.mensahe ++
                  [{ msname := data.msname, message := data.message, ava := data.ava,
                     timestamp := now }] } :: post,
           events := s.events },
          clients.map (fun c =>
            { target := c,
              signal := .newMessage (some { msname := data.msname, message := data.message,
                                            ava := data.ava, timestamp := now }) })) := by
  obtain ⟨pre, post, h1, h2, h3⟩ := updateOne_of_find
    (fun x : FamilyGroup => x._id == data.familyGroupId)
    (fun x => { x with mensahe := x.mensahe ++
        [{ msname := data.msname, message := data.message, ava := data.ava,
           timestamp := now }] })
    s.groups g hfind
  refine ⟨pre, post, h1, fun x hx => by simpa using h2 x hx, ?_⟩
  simp only [sendMessage, FamilyGroup.findByIdAndUpdate, hfind, h3]
  simp

/-- C6: when no group has the id of the payload, `sendMessage` returns the
store as it is (so every group keeps its message log) and emits exactly one
signal: an `error` to the sending connection; in particular no
`newMessage` reaches any connection. -/
theorem sendMessage_unknown_group (s : Store) (clients : List SocketId) (socket : SocketId)
    (now : String) (data : SendPayload)
    (hnone : ∀ g ∈ s.groups, g._id ≠ data.familyGroupId) :
    (sendMessage s clients socket now data).1 = s ∧
    (sendMessage s clients socket now data).2 =
      [{ target := socket, signal := .error "Family group not found" }] ∧
    (∀ em ∈ (sendMessage s clients socket now data).2,
      em.target = socket ∧ ∀ m, em.signal ≠ .newMessage m) := by
  rw [sendMessage_of_missing s clients socket now data hnone]
  refine ⟨rfl, rfl, ?_⟩
  intro em hem
  simp only [List.mem_singleton] at hem
  subst hem
  exact ⟨rfl, fun m h => by simp at h⟩

theorem sendMessage_unknown_group_witness :
    (∀ g ∈ sampleStore.groups, g._id ≠ (SendPayload.mk 99 "Ana" "hi" "a.png" none).familyGroupId) ∧
    (sendMessage sampleStore [1, 2] 1 "t1" (SendPayload.mk 99 "Ana" "hi" "a.png" none)).1 =
      sampleStore ∧
    (sendMessage sampleStore [1, 2] 1 "t1" (SendPayload.mk 99 "Ana" "hi" "a.png" none)).2 =
      [{ target := 1, signal := .error "Family group not found" }] :=
  have h := sendMessage_unknown_group sampleStore [1, 2] 1 "t1"
    (SendPayload.mk 99 "Ana" "hi" "a.png" none) (by decide)
  ⟨by decide, h.1, h.2.1⟩

/-- C7: when the payload names an existing group `g`, `sendMessage` leaves
the Event collection and every other group document untouched, replaces `g`
by `g` with one message appended to its log, that message carrying the
author name, text and avatar of the payload and the server time `now`;
the `newMessage` signal with exactly that message goes to every connected
client; and the timestamp field of the payload has no influence. -/
theorem sendMessage_appends_and_broadcasts (s : Store) (clients : List SocketId)
    (socket : SocketId) (now : String) (data : SendPayload) (g : FamilyGroup)
    (hfind : FamilyGroup.findById s.groups data.familyGroupId = some g) :
    (∃ pre post, s.groups = pre ++ g :: post ∧
      (∀ x ∈ pre, x._id ≠ data.familyGroupId) ∧
      (sendMessage s clients socket now data).1 =
        { groups := pre ++
            { g with mensahe := g.mensahe ++
                [{ msname := data.msname, message := data.message, ava := data.ava,
                   timestamp := now }] } :: post,
          events := s.events }) ∧
    (sendMessage s clients socket now data).2 =
      clients.map (fun c =>
        { target := c,
          signal := .newMessage (some { msname := data.msname, message := data.message,
                                        ava := data.ava, timestamp := now }) }) ∧
    (∀ ts : Option String,
      sendMessage s clients socket now { data with timestamp := ts } =
        sendMessage s clients socket now data) := by
  obtain ⟨pre, post, h1, h2, h3⟩ := sendMessage_of_found s clients socket now data g hfind
  refine ⟨⟨pre, post, h1, h2, by rw [h3]⟩, by rw [h3], ?_⟩
  intro ts
  rfl

theorem sendMessage_appends_and_broadcasts_witness :
    FamilyGroup.findById sampleStore.groups
      (SendPayload.mk 1 "Ana" "hi" "a.png" (some "client-time")).familyGroupId =
      some sampleGroup ∧
    (sendMessage sampleStore [1, 2] 1 "t1"
        (SendPayload.mk 1 "Ana" "hi" "a.png" (some "client-time"))).2 =
      [1, 2].map (fun c =>
        { target := c,
          signal := .newMessage (some { msname := "Ana", message := "hi",
                                        ava := "a.png", timestamp := "t1" }) }) :=
  ⟨by decide,
    (sendMessage_appends_and_broadcasts sampleStore [1, 2] 1 "t1"
      (SendPayload.mk 1 "Ana" "hi" "a.png" (some "client-time")) sampleGroup (by decide)).2.1⟩

end Gatherly

namespace Gatherly

/-- After a run of `sendMessage` events that all name the group with id
`gid`, that group is the old document with the stored messages appended in
the order of the run. -/
theorem sendAll_findById (clients : List SocketId)
    (sends : List (SocketId × String × SendPayload)) (gid : ObjectId) :
    ∀ (s : Store) (g : FamilyGroup),
      FamilyGroup.findById s.groups gid = some g →
      (∀ x ∈ sends, x.2.2.familyGroupId = gid) →
      FamilyGroup.findById (sendAll s clients sends).1.groups gid =
        some { g with mensahe := g.mensahe ++ sends.map (fun x => x.2.2.stored x.2.1) } := by
  induction sends with
  | nil =>
    intro s g hfind _
    simpa [sendAll] using hfind
  | cons head rest ih =>
    intro s g hfind hall
    obtain ⟨socket, now, data⟩ := head
    have hd : data.familyGroupId = gid := hall (socket, now, data) (by simp)
    have hrest : ∀ x ∈ rest, x.2.2.familyGroupId = gid := fun x hx => hall x (by simp [hx])
    have hfind2 : FamilyGroup.findById s.groups data.familyGroupId = some g := by
      rw [hd]; exact hfind
    have hgid : g._id = gid := group_findById_id s.groups gid g hfind
    obtain ⟨pre, post, h1, h2, h3⟩ := sendMessage_of_found s clients socket now data g hfind2
    have hstep : FamilyGroup.findById (sendMessage s clients socket now data).1.groups gid =
        some { g with mensahe := g.mensahe ++ [data.stored now] } := by
      rw [h3]
      exact find_of_split (fun x : FamilyGroup => x._id == gid) pre post _
        (fun y hy => by
          have := h2 y hy
          rw [hd] at this
          simpa using this)
        (by simp [hgid])
    have := ih (sendMessage s clients socket now data).1 _ hstep hrest
    simpa [sendAll, List.append_assoc] using this

/-- C8: after any finite run of `sendMessage` events for an existing group
with log `L`, handled one after another, `loadMessages` for that group
emits one signal, to the requesting connection: `previousMessages` with `L`
followed by the stored messages in the order they were sent, and it returns
the store as it is. On every store, `loadMessages` changes nothing, and for
an id that no group has it emits one `error` to the requester. -/
theorem loadMessages_after_sends (s : Store) (clients : List SocketId) (requester : SocketId)
    (gid : ObjectId) (g : FamilyGroup) (sends : List (SocketId × String × SendPayload))
    (hfind : FamilyGroup.findById s.groups gid = some g)
    (hall : ∀ x ∈ sends, x.2.2.familyGroupId = gid) :
    loadMessages (sendAll s clients sends).1 requester gid =
      ((sendAll s clients sends).1,
        [{ target := requester,
           signal := .previousMessages
             (g.mensahe ++ sends.map (fun x =>
               { msname := x.2.2.msname, message := x.2.2.message, ava := x.2.2.ava,
                 timestamp := x.2.1 })) }]) ∧
    (∀ (s0 : Store) (r : SocketId) (id : ObjectId), (loadMessages s0 r id).1 = s0) ∧
    (∀ (s0 : Store) (r : SocketId) (id : ObjectId),
      (∀ x ∈ s0.groups, x._id ≠ id) →
      loadMessages s0 r id =
        (s0, [{ target := r, signal := .error "Family group not found" }])) := by
  refine ⟨?_, ?_, ?_⟩
  · have h := sendAll_findById clients sends gid s g hfind hall
    simp only [loadMessages, h]
    rfl
  · intro s0 r id
    unfold loadMessages
    cases FamilyGroup.findById s0.groups id <;> rfl
  · intro s0 r id hnone
    have hf : FamilyGroup.findById s0.groups id = none :=
      find_none_of_forall (fun x : FamilyGroup => x._id == id) s0.groups
        (fun x hx => by simpa using hnone x hx)
    simp [loadMessages, hf]

theorem loadMessages_after_sends_witness :
    FamilyGroup.findById sampleStore.groups 1 = some sampleGroup ∧
    (∀ x ∈ threeSends, x.2.2.familyGroupId = 1) ∧
    loadMessages (sendAll sampleStore [1, 2, 3, 4] threeSends).1 4 1 =
      ((sendAll sampleStore [1, 2, 3, 4] threeSends).1,
        [{ target := 4,
           signal := .previousMessages
             [{ msname := "Ana", message := "A", ava := "a.png", timestamp := "t1" },
              { msname := "Ben", message := "B", ava := "b.png", timestamp := "t2" },
              { msname := "Cy", message := "C", ava := "c.png", timestamp := "t3" }] }]) :=
  ⟨by decide, by decide,
    (loadMessages_after_sends sampleStore [1, 2, 3, 4] 4 1 sampleGroup threeSends
      (by decide) (by decide)).1⟩

end Gatherly

namespace Gatherly

/-! ## Claims on the listing route -/

theorem toNat_skip (p l : Int) (hp : 1 ≤ p) (hl : 1 ≤ l) :
    ((p - 1) * l).toNat = (p.toNat - 1) * l.toNat := by
  obtain ⟨a, ha⟩ := Int.eq_ofNat_of_zero_le (by omega : 0 ≤ p - 1)
  obtain ⟨b, hb⟩ := Int.eq_ofNat_of_zero_le (by omega : 0 ≤ l)
  have hp2 : p = ((a + 1 : Nat) : Int) := by push_cast; omega
  have hmul : (p - 1) * l = ((a * b : Nat) : Int) := by rw [ha, hb]; push_cast; rfl
  rw [hmul, hp2, hb]
  simp only [Int.toNat_ofNat]
  simp

theorem listForGroup_of_member (s : Store) (user : AuthUser) (gid : ObjectId)
    (pageQ limitQ : Option Int) (g : FamilyGroup)
    (hfind : FamilyGroup.findById s.groups gid = some g)
    (hmem : ∃ m ∈ g.members, m.user_id = user.id) :
    listForGroup s user (.wellFormed gid) pageQ limitQ =
      (s, .ok 200
        { events := ((Event.find s.events gid).drop
            (paginate pageQ limitQ (Event.countDocuments s.events gid)).skip.toNat).take
            (paginate pageQ limitQ (Event.countDocuments s.events gid)).limit.toNat,
          totalPages := (paginate pageQ limitQ (Event.countDocuments s.events gid)).totalPages,
          currentPage := (paginate pageQ limitQ (Event.countDocuments s.events gid)).page }) := by
  have hid : g._id = gid := group_findById_id s.groups gid g hfind
  have hany : g.members.any (fun member => member.user_id == user.id) = true := by
    simpa [List.any_eq_true] using hmem
  simp only [listForGroup, hfind, hany, hid]
  simp

theorem listForGroup_of_nonmember (s : Store) (user : AuthUser) (gid : ObjectId)
    (pageQ limitQ : Option Int) (g : FamilyGroup)
    (hfind : FamilyGroup.findById s.groups gid = some g)
    (hnon : ∀ m ∈ g.members, m.user_id ≠ user.id) :
    listForGroup s user (.wellFormed gid) pageQ limitQ =
      (s, .fail 403 "You are not a member of this family group") := by
  have hany : g.members.any (fun member => member.user_id == user.id) = false := by
    simpa [List.any_eq_false] using hnon
  simp only [listForGroup, hfind, hany]
  simp

theorem listForGroup_store (s : Store) (user : AuthUser) (param : IdParam)
    (pageQ limitQ : Option Int) : (listForGroup s user param pageQ limitQ).1 = s := by
  cases param with
  | malformed raw => rfl
  | wellFormed gid =>
    cases hf : FamilyGroup.findById s.groups gid with
    | none => simp [listForGroup, hf]
    | some g =>
      by_cases hm : ∀ m ∈ g.members, m.user_id ≠ user.id
      · rw [listForGroup_of_nonmember s user gid pageQ limitQ g hf hm]
      · have hmem : ∃ m ∈ g.members, m.user_id = user.id := by simpa using hm
        rw [listForGroup_of_member s user gid pageQ limitQ g hf hmem]

/-- C9 (as stated, refuted): for group 1 of `listStore`, of which `u1` is a
member and which owns the events 100 and 102, page 1 with limit 0 is
answered with both events and 1 page, not with what the clamped limit
`max 1 0 = 1` prescribes (the first event only, and 2 pages); a group id
that is not a well-formed ObjectId, which no group has, is answered 500,
not 404; and for page `2 ^ 53` with limit 3 the number of records the
handler asks the store to skip is not `(p - 1) * l`. -/
theorem listForGroup_not_as_claimed :
    (∃ m ∈ sampleGroup.members, m.user_id = u1.id) ∧
    FamilyGroup.findById listStore.groups 1 = some sampleGroup ∧
    (listForGroup listStore u1 (.wellFormed 1) (some 1) (some 0)).2 =
      .ok 200
        { events := listStore.events.filter (fun e => e.family_group_id == 1),
          totalPages := 1, currentPage := 1 } ∧
    (listStore.events.filter (fun e => e.family_group_id == 1)).length = 2 ∧
    (listForGroup listStore u1 (.wellFormed 1) (some 1) (some 0)).2 ≠
      .ok 200
        { events := ((listStore.events.filter (fun e => e.family_group_id == 1)).drop
            ((max 1 1 - 1) * max 1 0)).take (max 1 0),
          totalPages := 2, currentPage := 1 } ∧
    (listForGroup listStore u1 (.malformed "abc") none none).2 =
      .fail 500 "Error fetching events" ∧
    (listForGroup listStore u1 (.malformed "abc") none none).2.status ≠ 404 ∧
    (paginate (some 9007199254740992) (some 3)
        (Event.countDocuments listStore.events 1)).skip ≠
      (max 1 9007199254740992 - 1) * max 1 3 := by
  decide

/-- C9 (amended): the listing route never changes the store. A well-formed
group id that no group has is answered 404, whoever asks (what a malformed
id is answered is left open). When the group exists and the
user is one of its members, with `p` the page (1 when absent or not a
number, else `max 1 page`) and `l` the limit (10 when absent, not a number
or 0, else `max 1 limit`), and with `p`, `l`, `(p - 1) * l` at most
`2 ^ 53` and fewer than `2 ^ 53` events of the group, the answer is 200
with: the Event records whose `family_group_id` is the requested id, in
collection order, without the first `(p - 1) * l` and cut to at most `l`;
`totalPages` the ceiling of (number of those records) / `l`; and
`currentPage = p`. No 2xx answer contains an event of another group. -/
theorem listForGroup_spec (s : Store) (user : AuthUser) (gid : ObjectId)
    (pageQ limitQ : Option Int) (p l : Int)
    (hp : p = match pageQ with
      | none => 1
      | some v => max 1 v)
    (hl : l = match limitQ with
      | none => 10
      | some v => if v = 0 then 10 else max 1 v) :
    (∀ param : IdParam, (listForGroup s user param pageQ limitQ).1 = s) ∧
    ((∀ g ∈ s.groups, g._id ≠ gid) →
      (listForGroup s user (.wellFormed gid) pageQ limitQ).2 =
        .fail 404 "Family group not found") ∧
    (∀ g : FamilyGroup, FamilyGroup.findById s.groups gid = some g →
      (∃ m ∈ g.members, m.user_id = user.id) →
      ExactRange p l (s.events.filter (fun e => e.family_group_id == gid)).length →
      (listForGroup s user (.wellFormed gid) pageQ limitQ).2 =
        .ok 200
          { events := ((s.events.filter (fun e => e.family_group_id == gid)).drop
              ((p.toNat - 1) * l.toNat)).take l.toNat,
            totalPages :=
              ⌈(((s.events.filter (fun e => e.family_group_id == gid)).length : ℚ) / (l : ℚ))⌉,
            currentPage := p }) ∧
    (∀ (st : Nat) (lok : ListOk),
      (listForGroup s user (.wellFormed gid) pageQ limitQ).2 = .ok st lok →
      ∀ e ∈ lok.events, e ∈ s.events ∧ e.family_group_id = gid) := by
  have hpage : ∀ total, (paginate pageQ limitQ total).page = p := fun total => by
    rw [hp]; exact paginate_page pageQ limitQ total
  have hlimit : ∀ total, (paginate pageQ limitQ total).limit = l := fun total => by
    rw [hl]; exact paginate_limit pageQ limitQ total
  have hp1 : 1 ≤ p := by rw [← hpage 0]; exact one_le_page pageQ limitQ 0
  have hl1 : 1 ≤ l := by rw [← hlimit 0]; exact one_le_limit pageQ limitQ 0
  refine ⟨fun param => listForGroup_store s user param pageQ limitQ, ?_, ?_, ?_⟩
  · intro hnone
    have hf : FamilyGroup.findById s.groups gid = none :=
      find_none_of_forall (fun x : FamilyGroup => x._id == gid) s.groups
        (fun x hx => by simpa using hnone x hx)
    simp [listForGroup, hf]
  · intro g hfind hmem hrange
    rw [listForGroup_of_member s user gid pageQ limitQ g hfind hmem]
    have hrange2 : ExactRange
        (paginate pageQ limitQ (Event.countDocuments s.events gid)).page
        (paginate pageQ limitQ (Event.countDocuments s.events gid)).limit
        (Event.countDocuments s.events gid) := by
      rw [hpage, hlimit]; exact hrange
    have hskip : (paginate pageQ limitQ (Event.countDocuments s.events gid)).skip =
        (p - 1) * l := by
      rw [paginate_skip_of_range pageQ limitQ _ hrange2, hpage, hlimit]
    have htotal : (paginate pageQ limitQ (Event.countDocuments s.events gid)).totalPages =
        ⌈(((Event.countDocuments s.events gid : Nat) : ℚ) / (l : ℚ))⌉ := by
      have := ceil_div_formula (Event.countDocuments s.events gid) l hl1
      rw [← this, ← hlimit (Event.countDocuments s.events gid)]; rfl
    simp only [hpage, hlimit, hskip, htotal, toNat_skip p l hp1 hl1]
    rfl
  · intro st lok h
    exact listForGroup_ok_mem s user gid pageQ limitQ st lok h

theorem listForGroup_spec_witness :
    ((2 : Int) = match (some 2 : Option Int) with
      | none => 1
      | some v => max 1 v) ∧
    ((1 : Int) = match (some 1 : Option Int) with
      | none => 10
      | some v => if v = 0 then 10 else max 1 v) ∧
    FamilyGroup.findById listStore.groups 1 = some sampleGroup ∧
    (∃ m ∈ sampleGroup.members, m.user_id = u1.id) ∧
    ExactRange 2 1 (listStore.events.filter (fun e => e.family_group_id == 1)).length ∧
    (listForGroup listStore u1 (.wellFormed 1) (some 2) (some 1)).1 = listStore ∧
    (listForGroup listStore u1 (.wellFormed 1) (some 2) (some 1)).2 =
      .ok 200
        { events := ((listStore.events.filter (fun e => e.family_group_id == 1)).drop
            (((2 : Int).toNat - 1) * (1 : Int).toNat)).take (1 : Int).toNat,
          totalPages :=
            ⌈(((listStore.events.filter (fun e => e.family_group_id == 1)).length : ℚ) /
              ((1 : Int) : ℚ))⌉,
          currentPage := 2 } :=
  have h := listForGroup_spec listStore u1 1 (some 2) (some 1) 2 1 (by decide) (by decide)
  have hr : ExactRange 2 1
      (listStore.events.filter (fun e => e.family_group_id == 1)).length := by
    unfold ExactRange
    decide
  ⟨by decide, by decide, by decide, ⟨{ user_id := 10 }, by decide, rfl⟩, hr, h.1 _,
    h.2.2.1 sampleGroup (by decide) ⟨{ user_id := 10 }, by decide, rfl⟩ hr⟩

/-- A sample run of the listing route: page 2 with limit 1 of the two events
of group 1. -/
theorem listForGroup_sample :
    listForGroup listStore u1 (.wellFormed 1) (some 2) (some 1) =
      (listStore, .ok 200
        { events := [{ _id := 102, family_group_id := 1, user_id := 11, title := "Picnic",
                       description := "Park", date := "2030-03-01", interested := [],
                       createdAt := "t2" }],
          totalPages := 2, currentPage := 2 }) := by
  decide

end Gatherly

namespace Gatherly

/-! ## Claims on refused requests -/

theorem edit_of_stranger (s : Store) (user : AuthUser) (eventId : ObjectId) (body : EditBody)
    (event : Event)
    (hfind : Event.findById s.events eventId = some event)
    (hnot : event.user_id ≠ user.id) :
    edit s user eventId body = (s, .fail 403 "You are not authorized to edit this event") := by
  have hne : (event.user_id != user.id) = true := by simpa using hnot
  simp only [edit, hfind, hne]
  simp

theorem delete_of_stranger (s : Store) (user : AuthUser) (eventId : ObjectId) (event : Event)
    (hfind : Event.findById s.events eventId = some event)
    (hnot : event.user_id ≠ user.id) :
    delete s user (.wellFormed eventId) =
      (s, .fail 403 "You are not authorized to delete this event") := by
  have hne : (event.user_id != user.id) = true := by simpa using hnot
  simp only [delete, hfind, hne]
  simp

/-- C10 (as stated, refuted): a create request on an existing group by a
user who is not one of its members is answered 400 with the validation
errors, not 403, when its body fails validation (here an empty title). -/
theorem create_nonmember_invalid_body :
    FamilyGroup.findOne sampleStore.groups "FAM1" = some sampleGroup ∧
    (∀ m ∈ sampleGroup.members, m.user_id ≠ outsider.id) ∧
    create sampleISO sampleStore 100 "t0" outsider { sampleBody with title := some "" } =
      (sampleStore, .invalid ["Title is required"]) ∧
    (create sampleISO sampleStore 100 "t0" outsider
      { sampleBody with title := some "" }).2.status ≠ 403 := by
  decide

/-- C10 (amended): on every store, (a) a listing of an existing group by a
user who is none of its members, and a create request that passes
validation and names an existing group of which the user is no member
(whatever the number of members, also above 100), are answered 403;
(b) an edit and a delete of an existing event by a user other than its
creator (member of the owning group or not) are answered 403; and each of
the four returns the store as it is. -/
theorem forbidden_changes_nothing (isISO8601 : String → Bool) (s : Store) (user : AuthUser) :
    (∀ (gid : ObjectId) (g : FamilyGroup) (pageQ limitQ : Option Int),
      FamilyGroup.findById s.groups gid = some g →
      (∀ m ∈ g.members, m.user_id ≠ user.id) →
      listForGroup s user (.wellFormed gid) pageQ limitQ =
        (s, .fail 403 "You are not a member of this family group")) ∧
    (∀ (newId : ObjectId) (now : String) (body : CreateBody) (g : FamilyGroup),
      validateEventCreation isISO8601 body = [] →
      FamilyGroup.findOne s.groups (body.unique_code.getD "") = some g →
      (∀ m ∈ g.members, m.user_id ≠ user.id) →
      create isISO8601 s newId now user body =
        (s, .fail 403 "You are not a member of this family group")) ∧
    (∀ (eventId : ObjectId) (body : EditBody) (event : Event),
      Event.findById s.events eventId = some event →
      event.user_id ≠ user.id →
      edit s user eventId body =
        (s, .fail 403 "You are not authorized to edit this event")) ∧
    (∀ (eventId : ObjectId) (event : Event),
      Event.findById s.events eventId = some event →
      event.user_id ≠ user.id →
      delete s user (.wellFormed eventId) =
        (s, .fail 403 "You are not authorized to delete this event")) :=
  ⟨fun gid g pageQ limitQ hfind hnon =>
      listForGroup_of_nonmember s user gid pageQ limitQ g hfind hnon,
    fun newId now body g hvalid hfind hnon =>
      create_of_nonmember isISO8601 s newId now user body g hvalid hfind hnon,
    fun eventId body event hfind hnot => edit_of_stranger s user eventId body event hfind hnot,
    fun eventId event hfind hnot => delete_of_stranger s user eventId event hfind hnot⟩

theorem forbidden_changes_nothing_witness :
    100 < bigGroup.members.length ∧
    create sampleISO bigStore 100 "t0" outsider bigBody =
      (bigStore, .fail 403 "You are not a member of this family group") ∧
    (∃ m ∈ sampleGroup.members, m.user_id = u2.id) ∧
    edit eventStore u2 100 titleOnly =
      (eventStore, .fail 403 "You are not authorized to edit this event") ∧
    delete eventStore u2 (.wellFormed 100) =
      (eventStore, .fail 403 "You are not authorized to delete this event") :=
  ⟨by decide,
    (forbidden_changes_nothing sampleISO bigStore outsider).2.1 100 "t0" bigBody bigGroup
      (by decide) (by decide) (by decide),
    ⟨{ user_id := 11 }, by decide, rfl⟩,
    (forbidden_changes_nothing sampleISO eventStore u2).2.2.1 100 titleOnly sampleEvent
      (by decide) (by decide),
    (forbidden_changes_nothing sampleISO eventStore u2).2.2.2 100 sampleEvent
      (by decide) (by decide)⟩

end Gatherly

namespace Gatherly

/-! ## Lemmas for the consistency invariant -/

theorem map_updateOne {α β : Type} (key : α → β) (p : α → Bool) (f : α → α)
    (hkey : ∀ x, key (f x) = key x) (l : List α) :
    (updateOne p f l).map key = l.map key := by
  induction l with
  | nil => rfl
  | cons a t ih =>
    by_cases hp : p a = true
    · simp [updateOne, hp, hkey]
    · have hp2 : p a = false := by simpa using hp
      simp [updateOne, hp2, ih]

theorem countP_updateOne {α : Type} (q : α → Bool) (p : α → Bool) (f : α → α)
    (hq : ∀ x, q (f x) = q x) (l : List α) :
    (updateOne p f l).countP q = l.countP q := by
  induction l with
  | nil => rfl
  | cons a t ih =>
    by_cases hp : p a = true
    · simp [updateOne, hp, List.countP_cons, hq]
    · have hp2 : p a = false := by simpa using hp
      simp [updateOne, hp2, List.countP_cons, ih]

/-- Every document of the updated collection is an old one or the update of
an old one that the filter selects. -/
theorem mem_updateOne {α : Type} (p : α → Bool) (f : α → α) (l : List α) (y : α)
    (h : y ∈ updateOne p f l) : y ∈ l ∨ ∃ x ∈ l, p x = true ∧ y = f x := by
  induction l with
  | nil => simp [updateOne] at h
  | cons a t ih =>
    by_cases hp : p a = true
    · simp only [updateOne, hp, if_true, List.mem_cons] at h
      rcases h with rfl | h
      · exact Or.inr ⟨a, by simp, hp, rfl⟩
      · exact Or.inl (by simp [h])
    · have hp2 : p a = false := by simpa using hp
      simp only [updateOne, hp2, Bool.false_eq_true, if_false, List.mem_cons] at h
      rcases h with rfl | h
      · exact Or.inl (by simp)
      · rcases ih h with h1 | ⟨x, hx, hpx, rfl⟩
        · exact Or.inl (by simp [h1])
        · exact Or.inr ⟨x, by simp [hx], hpx, rfl⟩

/-- With unique keys, the collection after an update by key consists of the
old documents with another key and the update of the one with that key. -/
theorem mem_updateOne_key {α : Type} (key : α → Nat) (k : Nat) (f : α → α) (l : List α)
    (hnd : (l.map key).Nodup) (y : α) :
    y ∈ updateOne (fun x => key x == k) f l ↔
      (y ∈ l ∧ key y ≠ k) ∨ ∃ x ∈ l, key x = k ∧ y = f x := by
  induction l with
  | nil => simp [updateOne]
  | cons a t ih =>
    have hnd2 : (t.map key).Nodup := (List.nodup_cons.mp (by simpa using hnd)).2
    have hat : key a ∉ t.map key := (List.nodup_cons.mp (by simpa using hnd)).1
    by_cases hp : key a = k
    · have hpb : (key a == k) = true := by simpa using hp
      have htk : ∀ z ∈ t, key z ≠ k := by
        intro z hz hzk
        exact hat (by rw [hp, ← hzk]; exact List.mem_map_of_mem key hz)
      simp only [updateOne, hpb, if_true, List.mem_cons]
      constructor
      · rintro (rfl | h)
        · exact Or.inr ⟨a, Or.inl rfl, hp, rfl⟩
        · exact Or.inl ⟨Or.inr h, htk y h⟩
      · rintro (⟨h | h, hk⟩ | ⟨x, h | h, hxk, rfl⟩)
        · exact absurd (h ▸ hp) hk
        · exact Or.inr h
        · exact Or.inl (by rw [h])
        · exact absurd hxk (htk x h)
    · have hpb : (key a == k) = false := by simpa using hp
      simp only [updateOne, hpb, Bool.false_eq_true, if_false, List.mem_cons, ih hnd2]
      constructor
      · rintro (rfl | ⟨h, hk⟩ | ⟨x, hx, hxk, rfl⟩)
        · exact Or.inl ⟨Or.inl rfl, hp⟩
        · exact Or.inl ⟨Or.inr h, hk⟩
        · exact Or.inr ⟨x, Or.inr hx, hxk, rfl⟩
      · rintro (⟨h | h, hk⟩ | ⟨x, h | h, hxk, rfl⟩)
        · exact Or.inl h
        · exact Or.inr (Or.inl ⟨h, hk⟩)
        · exact absurd (h ▸ hxk) hp
        · exact Or.inr (Or.inr ⟨x, h, hxk, rfl⟩)

theorem countP_eraseP_of_disjoint {α : Type} (q p : α → Bool) (l : List α)
    (h : ∀ x ∈ l, p x = true → q x = false) :
    (l.eraseP p).countP q = l.countP q := by
  induction l with
  | nil => rfl
  | cons a t ih =>
    have ht : ∀ x ∈ t, p x = true → q x = false := fun x hx => h x (by simp [hx])
    by_cases hp : p a = true
    · have hq : q a = false := h a (by simp) hp
      simp [List.eraseP_cons, hp, List.countP_cons, hq]
    · have hp2 : p a = false := by simpa using hp
      simp [List.eraseP_cons, hp2, List.countP_cons, ih ht]

theorem not_of_mem_eraseP_of_countP_one {α : Type} (p : α → Bool) (l : List α)
    (h : l.countP p = 1) : ∀ x ∈ l.eraseP p, p x = false := by
  induction l with
  | nil => simp at h
  | cons a t ih =>
    by_cases hp : p a = true
    · have ht : t.countP p = 0 := by
        simp [List.countP_cons, hp] at h
        exact List.countP_eq_zero.mpr (fun x hx => by simpa using h x hx)
      intro x hx
      simp only [List.eraseP_cons, hp, cond_true] at hx
      have := List.countP_eq_zero.mp ht x hx
      simpa using this
    · have hp2 : p a = false := by simpa using hp
      have ht : t.countP p = 1 := by simpa [List.countP_cons, hp2] using h
      intro x hx
      simp only [List.eraseP_cons, hp2, cond_false, List.mem_cons] at hx
      rcases hx with rfl | hx
      · exact hp2
      · exact ih ht x hx

theorem countP_filter_of_imp {α : Type} (q r : α → Bool) (l : List α)
    (h : ∀ x ∈ l, q x = true → r x = true) :
    (l.filter r).countP q = l.countP q := by
  induction l with
  | nil => rfl
  | cons a t ih =>
    have ht : ∀ x ∈ t, q x = true → r x = true := fun x hx => h x (by simp [hx])
    by_cases hr : r a = true
    · simp [List.filter_cons, hr, List.countP_cons, ih ht]
    · have hr2 : r a = false := by simpa using hr
      have hq : q a = false := by
        by_contra hq
        have := h a (by simp) (by simpa using hq)
        simp [hr2] at this
      simp [List.filter_cons, hr2, List.countP_cons, hq, ih ht]

end Gatherly

namespace Gatherly

/-! ## The store after each event operation -/

theorem create_store_cases (isISO8601 : String → Bool) (s : Store) (newId : ObjectId)
    (now : String) (user : AuthUser) (body : CreateBody) :
    (create isISO8601 s newId now user body).1 = s ∨
    ∃ (g : FamilyGroup) (e : Event), g ∈ s.groups ∧ e._id = newId ∧
      e.family_group_id = g._id ∧
      (create isISO8601 s newId now user body).1 =
        { groups := updateOne (fun x => x._id == g._id)
            (fun x => { x with events := x.events ++
              [{ event_id := newId, user_id := user.id, title := body.title.getD "" }] })
            s.groups,
          events := s.events ++ [e] } := by
  by_cases hv : validateEventCreation isISO8601 body = []
  · cases hf : FamilyGroup.findOne s.groups (body.unique_code.getD "") with
    | none =>
      left
      simp [create, hv, hf]
    | some g =>
      by_cases hm : ∀ m ∈ g.members, m.user_id ≠ user.id
      · left
        rw [create_of_nonmember isISO8601 s newId now user body g hv hf hm]
      · have hmem : ∃ m ∈ g.members, m.user_id = user.id := by simpa using hm
        by_cases hc : g.members.length ≤ 100
        · right
          obtain ⟨e, he1, _, he3, hcr⟩ :=
            create_shape isISO8601 s newId now user body g hv hf hmem hc
          exact ⟨g, e, List.mem_of_find?_eq_some hf, he1, he3, by rw [hcr]⟩
        · left
          rw [create_of_over_capacity isISO8601 s newId now user body g hv hf hmem
            (by omega)]
  · left
    rw [create_of_invalid isISO8601 s newId now user body hv]

theorem edit_store_cases (s : Store) (user : AuthUser) (eventId : ObjectId) (body : EditBody) :
    (edit s user eventId body).1 = s ∨
    ∃ f : Event → Event, (∀ e, (f e)._id = e._id ∧ (f e).family_group_id = e.family_group_id) ∧
      (edit s user eventId body).1 =
        { groups := s.groups, events := updateOne (fun e => e._id == eventId) f s.events } := by
  cases hf : Event.findById s.events eventId with
  | none =>
    left
    simp [edit, hf]
  | some event =>
    by_cases hown : event.user_id = user.id
    · right
      have hid : event._id = eventId := event_findById_id s.events eventId event hf
      refine ⟨fun e => { e with title := orKeep body.title event.title,
                                description := orKeep body.description event.description,
                                date := orKeep body.date event.date },
        fun e => ⟨rfl, rfl⟩, ?_⟩
      rw [edit_of_creator s user eventId body event hf hown, hid]
    · left
      rw [edit_of_stranger s user eventId body event hf hown]

theorem delete_store_cases (s : Store) (user : AuthUser) (eventId : IdParam) :
    (delete s user eventId).1 = s ∨
    ∃ (id : ObjectId) (e : Event), e ∈ s.events ∧ e._id = id ∧
      (delete s user eventId).1 =
        { groups := updateOne (fun x => x._id == e.family_group_id)
            (fun g => { g with events := g.events.filter (fun x => !(x.event_id == id)) })
            s.groups,
          events := s.events.eraseP (fun x => x._id == id) } := by
  cases eventId with
  | malformed raw =>
    left
    rfl
  | wellFormed id =>
    cases hf : Event.findById s.events id with
    | none =>
      left
      simp [delete, hf]
    | some e =>
      by_cases hown : e.user_id = user.id
      · have hne : (e.user_id != user.id) = false := by simp [hown]
        cases hg : FamilyGroup.findById s.groups e.family_group_id with
        | none =>
          left
          simp [delete, hf, hne, FamilyGroup.findByIdAndUpdate, hg]
        | some g0 =>
          right
          refine ⟨id, e, List.mem_of_find?_eq_some hf, event_findById_id s.events id e hf, ?_⟩
          simp [delete, hf, hne, FamilyGroup.findByIdAndUpdate, hg, Event.findByIdAndDelete]
      · left
        rw [delete_of_stranger s user id e hf hown]

end Gatherly

namespace Gatherly

/-! ## Preservation of consistency -/

theorem edit_preserves (s : Store) (user : AuthUser) (eventId : ObjectId) (body : EditBody)
    (hu : GroupIdsUnique s) (hc : Consistent s) :
    GroupIdsUnique (edit s user eventId body).1 ∧ Consistent (edit s user eventId body).1 := by
  rcases edit_store_cases s user eventId body with h | ⟨f, hf, h⟩
  · rw [h]; exact ⟨hu, hc⟩
  · rw [h]
    refine ⟨hu, ?_, ?_⟩
    · intro g hg x hx
      obtain ⟨hcount, hown⟩ := hc.1 g hg x hx
      refine ⟨?_, ?_⟩
      · show (updateOne (fun e => e._id == eventId) f s.events).countP
            (fun e => e._id == x.event_id) = 1
        rw [countP_updateOne (fun e => e._id == x.event_id) _ f
          (fun e => by simp [(hf e).1]) s.events]
        exact hcount
      · intro e he hid
        rcases mem_updateOne _ f s.events e he with h1 | ⟨e0, he0, _, rfl⟩
        · exact hown e h1 hid
        · rw [(hf e0).2]
          exact hown e0 he0 (by rw [← (hf e0).1]; exact hid)
    · intro e he
      rcases mem_updateOne _ f s.events e he with h1 | ⟨e0, he0, _, rfl⟩
      · exact hc.2 e h1
      · obtain ⟨g, hg, hgid, hcount⟩ := hc.2 e0 he0
        exact ⟨g, hg, by rw [(hf e0).2]; exact hgid, by rw [(hf e0).1]; exact hcount⟩

theorem nodup_map_updateOne {α β : Type} (key : α → β) (p : α → Bool) (f : α → α)
    (l : List α) (hnd : (l.map key).Nodup) (hkey : ∀ x, key (f x) = key x) :
    ((updateOne p f l).map key).Nodup := by
  rw [map_updateOne key p f hkey l]
  exact hnd

/-- In a consistent store no summary carries an id that no record has. -/
theorem summary_ne_of_fresh (s : Store) (newId : ObjectId) (hc : Consistent s)
    (hfresh : ∀ e ∈ s.events, e._id ≠ newId) :
    ∀ g ∈ s.groups, ∀ x ∈ g.events, x.event_id ≠ newId := by
  intro g hg x hx hid
  have hcount := (hc.1 g hg x hx).1
  have hpos : 0 < s.events.countP (fun e => e._id == x.event_id) := by omega
  obtain ⟨e, he, hp⟩ := List.countP_pos_iff.mp hpos
  exact hfresh e he (by rw [← hid]; simpa using hp)

theorem create_preserves (isISO8601 : String → Bool) (s : Store) (newId : ObjectId)
    (now : String) (user : AuthUser) (body : CreateBody)
    (hu : GroupIdsUnique s) (hc : Consistent s)
    (hfresh : ∀ e ∈ s.events, e._id ≠ newId) :
    GroupIdsUnique (create isISO8601 s newId now user body).1 ∧
    Consistent (create isISO8601 s newId now user body).1 := by
  rcases create_store_cases isISO8601 s newId now user body with h | ⟨g, e, hg, he1, he3, h⟩
  · rw [h]; exact ⟨hu, hc⟩
  · rw [h]
    have hsum := summary_ne_of_fresh s newId hc hfresh
    have hzero : s.events.countP (fun y => y._id == newId) = 0 :=
      List.countP_eq_zero.mpr (fun y hy => by simpa using hfresh y hy)
    -- an old summary of an old group keeps its one record and its owner
    have hold : ∀ g0 ∈ s.groups, ∀ x ∈ g0.events,
        (s.events ++ [e]).countP (fun y => y._id == x.event_id) = 1 ∧
        ∀ y ∈ s.events ++ [e], y._id = x.event_id → y.family_group_id = g0._id := by
      intro g0 hg0 x hx
      obtain ⟨hcount, hown⟩ := hc.1 g0 hg0 x hx
      have hne : x.event_id ≠ newId := hsum g0 hg0 x hx
      have hne2 : (e._id == x.event_id) = false := by
        rw [he1]; simpa using fun h => hne h.symm
      refine ⟨by simp [List.countP_append, List.countP_cons, hcount, hne2], ?_⟩
      intro y hy hid
      rcases List.mem_append.mp hy with h1 | h1
      · exact hown y h1 hid
      · simp only [List.mem_singleton] at h1
        subst h1
        exact absurd (he1.symm.trans hid).symm hne
    refine ⟨?_, ?_, ?_⟩
    · exact nodup_map_updateOne (fun g : FamilyGroup => g._id) _ _ s.groups hu (fun _ => rfl)
    · intro g1 hg1 x hx
      rcases (mem_updateOne_key (fun g : FamilyGroup => g._id) g._id _ s.groups hu g1).mp hg1
        with ⟨h1, _⟩ | ⟨g0, hg0, hk, rfl⟩
      · exact hold g1 h1 x hx
      · rcases List.mem_append.mp hx with h1 | h1
        · exact hold g0 hg0 x h1
        · simp only [List.mem_singleton] at h1
          subst h1
          refine ⟨by simp [List.countP_append, List.countP_cons, hzero, he1], ?_⟩
          intro y hy hid
          rcases List.mem_append.mp hy with h2 | h2
          · exact absurd hid (hfresh y h2)
          · simp only [List.mem_singleton] at h2
            subst h2
            exact he3.trans hk.symm
    · intro y hy
      rcases List.mem_append.mp hy with h1 | h1
      · obtain ⟨g0, hg0, hgid, hcount⟩ := hc.2 y h1
        by_cases hk : g0._id = g._id
        · refine ⟨_, (mem_updateOne_key (fun g : FamilyGroup => g._id) g._id _ s.groups hu
            _).mpr (Or.inr ⟨g0, hg0, hk, rfl⟩), hgid, ?_⟩
          have hne : (newId == y._id) = false := by
            simpa using fun h => hfresh y h1 h.symm
          simp [List.countP_append, List.countP_cons, hcount, hne]
        · exact ⟨g0, (mem_updateOne_key (fun g : FamilyGroup => g._id) g._id _ s.groups hu
            g0).mpr (Or.inl ⟨hg0, hk⟩), hgid, hcount⟩
      · simp only [List.mem_singleton] at h1
        subst h1
        refine ⟨_, (mem_updateOne_key (fun g : FamilyGroup => g._id) g._id _ s.groups hu
          _).mpr (Or.inr ⟨g, hg, rfl, rfl⟩), he3.symm, ?_⟩
        have hz : g.events.countP (fun x => x.event_id == newId) = 0 :=
          List.countP_eq_zero.mpr (fun x hx => by simpa using hsum g hg x hx)
        simp only [he1, List.countP_append, hz]
        simp [List.countP_cons]

end Gatherly

namespace Gatherly

theorem delete_preserves (s : Store) (user : AuthUser) (eventId : IdParam)
    (hu : GroupIdsUnique s) (hc : Consistent s) :
    GroupIdsUnique (delete s user eventId).1 ∧ Consistent (delete s user eventId).1 := by
  rcases delete_store_cases s user eventId with h | ⟨id, e, he, heid, h⟩
  · rw [h]; exact ⟨hu, hc⟩
  · rw [h]
    -- the record to delete is the only one with its id
    obtain ⟨gE, hgE, hgEid, hgEcount⟩ := hc.2 e he
    have hpos : 0 < gE.events.countP (fun x => x.event_id == e._id) := by omega
    obtain ⟨x0, hx0, hx0id⟩ := List.countP_pos_iff.mp hpos
    have hx0id2 : x0.event_id = id := by rw [← heid]; simpa using hx0id
    have hone : s.events.countP (fun y => y._id == id) = 1 := by
      rw [← hx0id2]; exact (hc.1 gE hgE x0 hx0).1
    -- a summary that stays is an old summary, of a group with the same id, of another event
    have hstay : ∀ g1 ∈ updateOne (fun x => x._id == e.family_group_id)
          (fun g => { g with events := g.events.filter (fun x => !(x.event_id == id)) })
          s.groups,
        ∀ x ∈ g1.events, x.event_id ≠ id ∧ ∃ g0 ∈ s.groups, g0._id = g1._id ∧ x ∈ g0.events := by
      intro g1 hg1 x hx
      rcases (mem_updateOne_key (fun g : FamilyGroup => g._id) e.family_group_id _ s.groups
        hu g1).mp hg1 with ⟨h1, hk⟩ | ⟨g0, hg0, _, rfl⟩
      · refine ⟨?_, g1, h1, rfl, hx⟩
        intro hid
        exact hk ((hc.1 g1 h1 x hx).2 e he (heid.trans hid.symm)).symm
      · simp only [List.mem_filter] at hx
        exact ⟨by simpa using hx.2, g0, hg0, rfl, hx.1⟩
    refine ⟨?_, ?_, ?_⟩
    · exact nodup_map_updateOne (fun g : FamilyGroup => g._id) _ _ s.groups hu (fun _ => rfl)
    · intro g1 hg1 x hx
      obtain ⟨hne, g0, hg0, hg0id, hx0'⟩ := hstay g1 hg1 x hx
      obtain ⟨hcount, hown⟩ := hc.1 g0 hg0 x hx0'
      refine ⟨?_, ?_⟩
      · show (s.events.eraseP (fun y => y._id == id)).countP (fun y => y._id == x.event_id) = 1
        rw [countP_eraseP_of_disjoint (fun y : Event => y._id == x.event_id)
          (fun y => y._id == id) s.events
          (fun y _ hy => by
            have hy2 : y._id = id := by simpa using hy
            simpa [hy2] using fun h : id = x.event_id => hne h.symm)]
        exact hcount
      · intro y hy hid
        rw [← hg0id]
        exact hown y (List.mem_of_mem_eraseP hy) hid
    · intro y hy
      have hy1 : y ∈ s.events := List.mem_of_mem_eraseP hy
      have hyne : y._id ≠ id := by
        have := not_of_mem_eraseP_of_countP_one (fun y : Event => y._id == id) s.events hone y hy
        simpa using this
      obtain ⟨g0, hg0, hgid, hcount⟩ := hc.2 y hy1
      by_cases hk : g0._id = e.family_group_id
      · refine ⟨_, (mem_updateOne_key (fun g : FamilyGroup => g._id) e.family_group_id _
          s.groups hu _).mpr (Or.inr ⟨g0, hg0, hk, rfl⟩), hgid, ?_⟩
        show (g0.events.filter (fun x => !(x.event_id == id))).countP
          (fun x => x.event_id == y._id) = 1
        rw [countP_filter_of_imp (fun x : EventSummary => x.event_id == y._id)
          (fun x => !(x.event_id == id)) g0.events
          (fun x _ hx => by
            have hx2 : x.event_id = y._id := by simpa using hx
            simpa [hx2] using hyne)]
        exact hcount
      · exact ⟨g0, (mem_updateOne_key (fun g : FamilyGroup => g._id) e.family_group_id _
          s.groups hu g0).mpr (Or.inl ⟨hg0, hk⟩), hgid, hcount⟩

/-- C11: let the store have unique group ids and be consistent (every
summary of every group names exactly one Event record, owned by that group,
and every Event record has an owning group with exactly one summary of
it). Then the store left by a create (with a new id that no record has), by
an edit and by a delete is again consistent with unique group ids, whatever
the request and whether it is accepted or refused. -/
theorem consistency_preserved (isISO8601 : String → Bool) (s : Store)
    (hu : GroupIdsUnique s) (hc : Consistent s) :
    (∀ (newId : ObjectId) (now : String) (user : AuthUser) (body : CreateBody),
      (∀ e ∈ s.events, e._id ≠ newId) →
      GroupIdsUnique (create isISO8601 s newId now user body).1 ∧
      Consistent (create isISO8601 s newId now user body).1) ∧
    (∀ (user : AuthUser) (eventId : ObjectId) (body : EditBody),
      GroupIdsUnique (edit s user eventId body).1 ∧
      Consistent (edit s user eventId body).1) ∧
    (∀ (user : AuthUser) (eventId : IdParam),
      GroupIdsUnique (delete s user eventId).1 ∧
      Consistent (delete s user eventId).1) :=
  ⟨fun newId now user body hfresh =>
      create_preserves isISO8601 s newId now user body hu hc hfresh,
    fun user eventId body => edit_preserves s user eventId body hu hc,
    fun user eventId => delete_preserves s user eventId hu hc⟩

theorem consistency_preserved_witness :
    GroupIdsUnique eventStore ∧ Consistent eventStore ∧
    (∀ e ∈ eventStore.events, e._id ≠ 101) ∧
    Consistent (create sampleISO eventStore 101 "t1" u2 sampleBody).1 ∧
    Consistent (edit eventStore u1 100 titleOnly).1 ∧
    Consistent (delete eventStore u1 (.wellFormed 100)).1 :=
  have hu : GroupIdsUnique eventStore := by unfold GroupIdsUnique; decide
  have hc : Consistent eventStore := by unfold Consistent; decide
  have h := consistency_preserved sampleISO eventStore hu hc
  ⟨hu, hc, by decide, (h.1 101 "t1" u2 sampleBody (by decide)).2,
    (h.2.1 u1 100 titleOnly).2, (h.2.2 u1 (.wellFormed 100)).2⟩

end Gatherly

namespace Gatherly

/-- The predicate tells stores apart: `listStore` has records without summaries. -/
theorem listStore_not_consistent : ¬ Consistent listStore := by
  unfold Consistent
  decide

end Gatherly

namespace Gatherly

/-! ## Claims on interleaved `sendMessage` calls -/

/-- The handler is its store call followed by its resumption. -/
theorem sendMessage_eq_update_resume (s : Store) (clients : List SocketId) (socket : SocketId)
    (now : String) (data : SendPayload) :
    sendMessage s clients socket now data =
      ((sendMessageUpdate s now data).1,
        sendMessageResume clients socket (sendMessageUpdate s now data).2) := by
  unfold sendMessage sendMessageUpdate sendMessageResume
  cases FamilyGroup.findByIdAndUpdate s.groups data.familyGroupId _ with
  | none => rfl
  | some r => rfl

/-- The store call appends the message of the call to the log of its group. -/
theorem sendMessageUpdate_findById (s : Store) (now : String) (data : SendPayload)
    (gid : ObjectId) (g : FamilyGroup)
    (hfind : FamilyGroup.findById s.groups gid = some g)
    (hd : data.familyGroupId = gid) :
    FamilyGroup.findById (sendMessageUpdate s now data).1.groups gid =
      some { g with mensahe := g.mensahe ++ [data.stored now] } := by
  have h := sendAll_findById [] [(0, now, data)] gid s g hfind
    (by intro x hx; simp only [List.mem_singleton] at hx; subst hx; exact hd)
  have h2 : (sendMessageUpdate s now data).1 = (sendAll s [] [(0, now, data)]).1 := by
    simp [sendAll, sendMessage_eq_update_resume]
  rw [h2, h]
  rfl

theorem countP_set_of_getElem {α : Type} (q : α → Bool) (l : List α) (i : Nat) (a b : α)
    (h : l[i]? = some a) :
    (l.set i b).countP q =
      l.countP q - (if q a = true then 1 else 0) + (if q b = true then 1 else 0) := by
  obtain ⟨hi, ha⟩ := List.getElem?_eq_some_iff.mp h
  rw [List.countP_set q l i b hi, ha]

theorem countP_pos_of_getElem {α : Type} (q : α → Bool) (l : List α) (i : Nat) (a : α)
    (h : l[i]? = some a) (hq : q a = true) : 0 < l.countP q := by
  obtain ⟨hi, ha⟩ := List.getElem?_eq_some_iff.mp h
  exact List.countP_pos_iff.mpr ⟨a, by rw [← ha]; exact List.getElem_mem hi, hq⟩

theorem startHub_inv (s : Store) (calls : List (SocketId × String × SendPayload))
    (gid : ObjectId) (g : FamilyGroup)
    (hfind : FamilyGroup.findById s.groups gid = some g) :
    HubInv calls gid g.mensahe (startHub s calls) := by
  refine ⟨by simp [startHub], g, [], hfind, by simp, ?_, ?_⟩
  · symm
    simp [startHub, List.countP_eq_zero, Phase.isPending]
  · intro i c p _ hp hnp
    simp only [startHub, List.getElem?_map] at hp
    cases hc : calls[i]? with
    | none => simp [hc] at hp
    | some c0 =>
      simp only [hc, Option.map_some', Option.some.injEq] at hp
      subst hp
      simp [Phase.isPending] at hnp

end Gatherly

namespace Gatherly

theorem advance_inv (clients : List SocketId) (calls : List (SocketId × String × SendPayload))
    (gid : ObjectId) (log0 : List Message)
    (hall : ∀ c ∈ calls, c.2.2.familyGroupId = gid)
    (h : HubState) (i : Nat) (hinv : HubInv calls gid log0 h) :
    HubInv calls gid log0 (advance clients calls h i) := by
  obtain ⟨hlen, g, order, hfind, hlog, hcount, hmem⟩ := hinv
  cases hc : calls[i]? with
  | none =>
    have : advance clients calls h i = h := by simp [advance, hc]
    rw [this]
    exact ⟨hlen, g, order, hfind, hlog, hcount, hmem⟩
  | some c =>
    obtain ⟨socket, now, data⟩ := c
    cases hp : h.phases[i]? with
    | none =>
      have : advance clients calls h i = h := by simp [advance, hc, hp]
      rw [this]
      exact ⟨hlen, g, order, hfind, hlog, hcount, hmem⟩
    | some p =>
      cases p with
      | pending =>
        have hadv : advance clients calls h i =
            { store := (sendMessageUpdate h.store now data).1,
              phases := h.phases.set i (.resolved (sendMessageUpdate h.store now data).2),
              out := h.out } := by
          simp [advance, hc, hp]
        rw [hadv]
        have hd : data.familyGroupId = gid := by
          obtain ⟨hi, hval⟩ := List.getElem?_eq_some_iff.mp hc
          exact hall (socket, now, data) (hval ▸ List.getElem_mem hi)
        refine ⟨by simp [hlen], _, order ++ [data.stored now],
          sendMessageUpdate_findById h.store now data gid g hfind hd, ?_, ?_, ?_⟩
        · simp [hlog]
        · show (order ++ [data.stored now]).length = (h.phases.set i _).countP _
          rw [countP_set_of_getElem _ h.phases i _ _ hp]
          simp [Phase.isPending, hcount]
        · intro j c p hcj hpj hnp
          by_cases hij : i = j
          · subst hij
            rw [hc] at hcj
            simp only [Option.some.injEq] at hcj
            subst hcj
            simp
          · rw [show (h.phases.set i _)[j]? = h.phases[j]? from List.getElem?_set_ne hij] at hpj
            exact List.mem_append_left _ (hmem j c p hcj hpj hnp)
      | resolved doc =>
        have hadv : advance clients calls h i =
            { store := h.store, phases := h.phases.set i .finished,
              out := h.out ++ sendMessageResume clients socket doc } := by
          simp [advance, hc, hp]
        rw [hadv]
        have hpos := countP_pos_of_getElem (fun p : Phase => !p.isPending) h.phases i
          (.resolved doc) hp (by simp [Phase.isPending])
        refine ⟨by simp [hlen], g, order, hfind, hlog, ?_, ?_⟩
        · show order.length = (h.phases.set i _).countP _
          rw [countP_set_of_getElem _ h.phases i _ _ hp]
          have e1 : (!(Phase.resolved doc).isPending) = true := rfl
          have e2 : (!Phase.finished.isPending) = true := rfl
          simp only [e1, e2, if_true]
          omega
        · intro j c p hcj hpj hnp
          by_cases hij : i = j
          · subst hij
            exact hmem i c (.resolved doc) hcj hp (by simp [Phase.isPending])
          · rw [show (h.phases.set i _)[j]? = h.phases[j]? from List.getElem?_set_ne hij] at hpj
            exact hmem j c p hcj hpj hnp
      | finished =>
        have : advance clients calls h i = h := by simp [advance, hc, hp]
        rw [this]
        exact ⟨hlen, g, order, hfind, hlog, hcount, hmem⟩

/-- An action of a call whose store call is still to be applied applies it. -/
theorem advance_started (clients : List SocketId)
    (calls : List (SocketId × String × SendPayload)) (h : HubState) (i : Nat)
    (hlen : h.phases.length = calls.length) (hi : i < calls.length) :
    ∃ p, (advance clients calls h i).phases[i]? = some p ∧ p.isPending = false := by
  have hi2 : i < h.phases.length := by omega
  obtain ⟨c, hc⟩ : ∃ c, calls[i]? = some c := ⟨calls[i], List.getElem?_eq_getElem hi⟩
  obtain ⟨p, hp⟩ : ∃ p, h.phases[i]? = some p := ⟨h.phases[i], List.getElem?_eq_getElem hi2⟩
  obtain ⟨socket, now, data⟩ := c
  cases p with
  | pending =>
    exact ⟨.resolved (sendMessageUpdate h.store now data).2,
      by simp [advance, hc, hp, List.getElem?_set_self hi2], rfl⟩
  | resolved doc =>
    exact ⟨.finished, by simp [advance, hc, hp, List.getElem?_set_self hi2], rfl⟩
  | finished =>
    exact ⟨.finished, by simp [advance, hc, hp], rfl⟩

/-- No action returns a call to the pending phase. -/
theorem advance_keeps_started (clients : List SocketId)
    (calls : List (SocketId × String × SendPayload)) (h : HubState) (i j : Nat) (p : Phase)
    (hp : h.phases[j]? = some p) (hnp : p.isPending = false) :
    ∃ q, (advance clients calls h i).phases[j]? = some q ∧ q.isPending = false := by
  have hj : j < h.phases.length := (List.getElem?_eq_some_iff.mp hp).1
  by_cases hij : i = j
  · subst hij
    cases hc : calls[i]? with
    | none => exact ⟨p, by simp [advance, hc, hp], hnp⟩
    | some c =>
      obtain ⟨socket, now, data⟩ := c
      cases p with
      | pending => simp [Phase.isPending] at hnp
      | resolved doc =>
        exact ⟨.finished, by simp [advance, hc, hp, List.getElem?_set_self hj], rfl⟩
      | finished => exact ⟨.finished, by simp [advance, hc, hp], rfl⟩
  · refine ⟨p, ?_, hnp⟩
    cases hc : calls[i]? with
    | none => simp [advance, hc, hp]
    | some c =>
      obtain ⟨socket, now, data⟩ := c
      cases hq : h.phases[i]? with
      | none => simp [advance, hc, hq, hp]
      | some q =>
        cases q <;> simp [advance, hc, hq, hp, List.getElem?_set_ne hij]

end Gatherly

namespace Gatherly

theorem runSchedule_inv (clients : List SocketId)
    (calls : List (SocketId × String × SendPayload)) (gid : ObjectId) (log0 : List Message)
    (hall : ∀ c ∈ calls, c.2.2.familyGroupId = gid) (schedule : List Nat) :
    ∀ h : HubState, HubInv calls gid log0 h →
      HubInv calls gid log0 (runSchedule clients calls h schedule) := by
  induction schedule with
  | nil => intro h hinv; exact hinv
  | cons a t ih =>
    intro h hinv
    exact ih (advance clients calls h a) (advance_inv clients calls gid log0 hall h a hinv)

theorem runSchedule_keeps_started (clients : List SocketId)
    (calls : List (SocketId × String × SendPayload)) (j : Nat) (schedule : List Nat) :
    ∀ (h : HubState) (p : Phase), h.phases[j]? = some p → p.isPending = false →
      ∃ q, (runSchedule clients calls h schedule).phases[j]? = some q ∧
        q.isPending = false := by
  induction schedule with
  | nil => intro h p hp hnp; exact ⟨p, hp, hnp⟩
  | cons a t ih =>
    intro h p hp hnp
    obtain ⟨q, hq, hnq⟩ := advance_keeps_started clients calls h a j p hp hnp
    exact ih (advance clients calls h a) q hq hnq

theorem runSchedule_started (clients : List SocketId)
    (calls : List (SocketId × String × SendPayload)) (gid : ObjectId) (log0 : List Message)
    (hall : ∀ c ∈ calls, c.2.2.familyGroupId = gid) (i : Nat) (hi : i < calls.length)
    (schedule : List Nat) :
    ∀ h : HubState, HubInv calls gid log0 h → i ∈ schedule →
      ∃ q, (runSchedule clients calls h schedule).phases[i]? = some q ∧
        q.isPending = false := by
  induction schedule with
  | nil => intro h _ hmem; simp at hmem
  | cons a t ih =>
    intro h hinv hmem
    by_cases hia : i = a
    · subst hia
      obtain ⟨q, hq, hnq⟩ := advance_started clients calls h i hinv.1 hi
      exact runSchedule_keeps_started clients calls i t (advance clients calls h i) q hq hnq
    · have hit : i ∈ t := by
        rcases List.mem_cons.mp hmem with h1 | h1
        · exact absurd h1 hia
        · exact h1
      exact ih (advance clients calls h a)
        (advance_inv clients calls gid log0 hall h a hinv) hit

/-- C12: let any number of `sendMessage` calls for one existing group be
in flight together, each taking two atomic actions (the database applies
its `findByIdAndUpdate` with the `$push`; the handler resumes and emits),
and let these actions interleave in any order (any schedule). Afterwards
the group still exists and its log is the old log followed by new
messages, among them the message of every call the schedule has run at
least once; when the schedule runs every call, the log has grown by
exactly as many messages as there were calls. -/
theorem interleaved_sends_keep_all (s : Store) (clients : List SocketId) (gid : ObjectId)
    (g : FamilyGroup) (calls : List (SocketId × String × SendPayload)) (schedule : List Nat)
    (hfind : FamilyGroup.findById s.groups gid = some g)
    (hall : ∀ c ∈ calls, c.2.2.familyGroupId = gid) :
    ∃ (g2 : FamilyGroup) (order : List Message),
      FamilyGroup.findById
        (runSchedule clients calls (startHub s calls) schedule).store.groups gid = some g2 ∧
      g2.mensahe = g.mensahe ++ order ∧
      (∀ (i : Nat) (c : SocketId × String × SendPayload), calls[i]? = some c → i ∈ schedule →
        ({ msname := c.2.2.msname, message := c.2.2.message, ava := c.2.2.ava,
           timestamp := c.2.1 } : Message) ∈ order) ∧
      ((∀ i < calls.length, i ∈ schedule) → order.length = calls.length) := by
  have hinv0 := startHub_inv s calls gid g hfind
  have hinv := runSchedule_inv clients calls gid g.mensahe hall schedule _ hinv0
  obtain ⟨hlen, g2, order, hfind2, hlog, hcount, hmem⟩ := hinv
  refine ⟨g2, order, hfind2, hlog, ?_, ?_⟩
  · intro i c hc hi
    have hilt : i < calls.length := (List.getElem?_eq_some_iff.mp hc).1
    obtain ⟨q, hq, hnq⟩ := runSchedule_started clients calls gid g.mensahe hall i hilt
      schedule _ hinv0 hi
    exact hmem i c q hc hq hnq
  · intro hfull
    rw [hcount, ← hlen]
    apply List.countP_eq_length.mpr
    intro p hp
    obtain ⟨i, hi, hpi⟩ := List.getElem_of_mem hp
    have hilt : i < calls.length := by omega
    obtain ⟨q, hq, hnq⟩ := runSchedule_started clients calls gid g.mensahe hall i hilt
      schedule _ hinv0 (hfull i hilt)
    have hpq : p = q := by
      have : (runSchedule clients calls (startHub s calls) schedule).phases[i]? = some p := by
        rw [List.getElem?_eq_getElem hi, hpi]
      rw [this] at hq
      exact Option.some.inj hq
    simp [hpq, hnq]

theorem interleaved_sends_keep_all_witness :
    FamilyGroup.findById sampleStore.groups 1 = some sampleGroup ∧
    (∀ c ∈ threeSends, c.2.2.familyGroupId = 1) ∧
    ∃ (g2 : FamilyGroup) (order : List Message),
      FamilyGroup.findById
        (runSchedule [1, 2, 3] threeSends (startHub sampleStore threeSends)
          [2, 0, 2, 1, 0, 1]).store.groups 1 = some g2 ∧
      g2.mensahe = sampleGroup.mensahe ++ order ∧
      (∀ (i : Nat) (c : SocketId × String × SendPayload), threeSends[i]? = some c →
        i ∈ [2, 0, 2, 1, 0, 1] →
        ({ msname := c.2.2.msname, message := c.2.2.message, ava := c.2.2.ava,
           timestamp := c.2.1 } : Message) ∈ order) ∧
      ((∀ i < threeSends.length, i ∈ [2, 0, 2, 1, 0, 1]) → order.length = threeSends.length) :=
  ⟨by decide, by decide,
    interleaved_sends_keep_all sampleStore [1, 2, 3] 1 sampleGroup threeSends
      [2, 0, 2, 1, 0, 1] (by decide) (by decide)⟩

/-- A sample interleaving: the store calls are applied in the order C, A, B,
and the log holds the three messages in that order. -/
theorem interleaved_sample :
    (runSchedule [1, 2, 3] threeSends (startHub sampleStore threeSends)
        [2, 0, 2, 1, 0, 1]).store.groups.map (fun g => g.mensahe) =
      [[{ msname := "Cy", message := "C", ava := "c.png", timestamp := "t3" },
        { msname := "Ana", message := "A", ava := "a.png", timestamp := "t1" },
        { msname := "Ben", message := "B", ava := "b.png", timestamp := "t2" }]] := by
  decide

end Gatherly
